import Mathlib

/-! # Verification of the service-detection and template-variable engines

This development gives a shallow embedding, in Lean 4, of the two core
engines of the repository's `app.py`:

* `EnhancedServiceDetector` — the rule-based extraction engine that applies an
  ordered library of regular-expression pattern groups to raw configuration
  text and assembles an `ExtractedServiceInfo` record, and
* `VariableManager` — the template engine that discovers `{name}` placeholders
  in a template string and fills them by literal substitution.

Python strings are embedded as `List Char`.  Python's `re` module is embedded
by a small backtracking regular-expression engine (`RE`, `reSearch`,
`reFinditer`) over an abstract syntax of exactly the constructs the source
patterns use, with Python's leftmost / first-alternative / greedy-vs-lazy
backtracking order and `re.IGNORECASE` comparison.  `str.replace` is embedded
by `replaceAll` (leftmost, non-overlapping, the replacement text is not
rescanned).  Code that can raise in Python (out-of-range capture-group access)
is embedded in `Except String`; `detect`'s top-level `try/except` becomes an
explicit match on that `Except`.
-/

namespace App

/-! ## Basic string utilities (embedding of Python `str` helpers) -/

/-- Lower-case a character, as Python `str.lower` does for ASCII. -/
def lowC (c : Char) : Char := c.toLower

/-- Upper-case a character, as Python `str.upper` does for ASCII. -/
def uppC (c : Char) : Char := c.toUpper

/-- Lower-case a string (Python `s.lower()`). -/
def lowStr (s : List Char) : List Char := s.map lowC

/-- Upper-case a string (Python `s.upper()`). -/
def uppStr (s : List Char) : List Char := s.map uppC

/-- Python `needle in haystack` (substring containment test). -/
def containsSub (haystack needle : List Char) : Bool :=
  match haystack with
  | [] => needle.isEmpty
  | _ :: rest => needle.isPrefixOf haystack || containsSub rest needle

/-- Case-insensitive substring containment: `needle in haystack.lower()`
with `needle` already lower-case. -/
def containsSubCI (haystack needle : List Char) : Bool :=
  containsSub (lowStr haystack) needle

/-- Python slice `s[a:b]` (clamping, as Python slices do). -/
def slice (s : List Char) (a b : Nat) : List Char :=
  (s.drop a).take (b - a)

/-- Python `str.strip()` / `str.strip(chars)`: drop characters of `cs`
from both ends. -/
def stripChars (cs : List Char) (s : List Char) : List Char :=
  (s.dropWhile (cs.contains ·)).reverse.dropWhile (cs.contains ·) |>.reverse

/-- Whitespace characters recognised by Python's `str.strip()` and `\s`. -/
def wsChars : List Char := [' ', '\t', '\n', '\r', '\x0b', '\x0c']

/-- Python `str.strip()` with no argument. -/
def stripWs (s : List Char) : List Char := stripChars wsChars s

/-- Python `str.isdigit` on one ASCII character. -/
def isDig (c : Char) : Bool := '0' ≤ c && c ≤ '9'

/-- Numeric value of a digit character. -/
def digVal (c : Char) : Nat := c.toNat - '0'.toNat

/-- Python `int(s)` on a string of digits (only ever applied to digit runs). -/
def natOfDigits (s : List Char) : Nat :=
  s.foldl (fun acc c => acc * 10 + digVal c) 0

/-- Decimal rendering of a `Nat`, used to embed Python's f-string formatting
of the parsed hour values. -/
def natToStr (n : Nat) : List Char := (Nat.toDigits 10 n)

/-! ## `str.replace` (Python literal replacement)

`replaceAllF` is fuelled so that it reduces by `decide`/`rfl`; fuel is always
instantiated with the length of the subject string, which suffices because
each step consumes at least one character of the subject.  Semantics match
Python `s.replace(pat, rep)` for non-empty `pat`: scan left to right, replace
each non-overlapping occurrence, never rescan the inserted replacement. -/

def replaceAllF : Nat → List Char → List Char → List Char → List Char
  | 0, l, _, _ => l
  | _ + 1, [], _, _ => []
  | fuel + 1, c :: cs, pat, rep =>
    if pat ≠ [] ∧ pat.isPrefixOf (c :: cs) then
      rep ++ replaceAllF fuel (cs.drop (pat.length - 1)) pat rep
    else
      c :: replaceAllF fuel cs pat rep

/-- Python `s.replace(pat, rep)` (for the non-empty patterns the source
uses). -/
def replaceAll (s pat rep : List Char) : List Char :=
  replaceAllF s.length s pat rep

/-! ## `VariableManager` (template engine) -/

/-- The single reserved identifier (`VariableManager.EXCLUDED_VARIABLES`). -/
def reservedVar : List Char := "active_agent_prompt".toList

/-- The length of `dropWhile` is at most the length of the list. -/
theorem length_dropWhile_le' (p : Char → Bool) (l : List Char) :
    (l.dropWhile p).length ≤ l.length := by
  conv_rhs => rw [← List.takeWhile_append_dropWhile (p := p) (l := l)]
  rw [List.length_append]
  omega

/-- Fuelled worker for `findVars`; fuel is always instantiated with the
length of the subject, which suffices (each step shortens the subject).
`rest.dropWhile (· ≠ '}')` is either empty (no closing `}` follows: the
attempt at this `{` fails and scanning resumes one character later) or starts
with `}` (the greedy `[^}]+` run, which must be non-empty, ends there and the
match succeeds). -/
def findVarsF : Nat → List Char → List (List Char)
  | 0, _ => []
  | _ + 1, [] => []
  | fuel + 1, c :: rest =>
    if c = '{' then
      let id := rest.takeWhile (· ≠ '}')
      let rest' := rest.dropWhile (· ≠ '}')
      if id ≠ [] ∧ rest' ≠ [] then id :: findVarsF fuel rest'.tail
      else findVarsF fuel rest
    else findVarsF fuel rest

/-- Embedding of `re.findall(r'\{([^}]+)\}', template)`: scan positions left
to right; at a `{`, the greedy `[^}]+` takes the maximal run of non-`}`
characters, which must be non-empty and followed by `}`; matches are
non-overlapping, and a failed position advances by one character. -/
def findVars (l : List Char) : List (List Char) := findVarsF l.length l

/-- Fuelled worker for `dedupFirst`. -/
def dedupFirstF : Nat → List (List Char) → List (List Char)
  | 0, _ => []
  | _ + 1, [] => []
  | fuel + 1, x :: xs => x :: dedupFirstF fuel (xs.filter (· ≠ x))

/-- First-occurrence deduplication.  The source computes
`list(set(injectable))`; the mathematical content is the set of distinct
identifiers, and this embedding fixes the (in CPython unspecified,
hash-dependent) iteration order to first occurrence. -/
def dedupFirst (l : List (List Char)) : List (List Char) := dedupFirstF l.length l

/-- Source `VariableManager.detect_variables`: all `{…}` identifiers, with the
reserved identifier excluded and duplicates removed. -/
def detectVariables (template : List Char) : List (List Char) :=
  dedupFirst ((findVars template).filter (· ≠ reservedVar))

/-- The placeholder string `'{' + name + '}'` built by
`VariableManager.inject_variables`. -/
def placeholder (name : List Char) : List Char :=
  '{' :: (name ++ ['}'])

/-- Source `VariableManager.inject_variables`: replace the reserved placeholder by
the agent's prompt, then each `{name}` by its value, in mapping order,
each by literal (non-regex) `str.replace`. -/
def injectVariables (template : List Char) (vars : List (List Char × List Char))
    (agentPrompt : List Char) : List Char :=
  let result := replaceAll template (placeholder reservedVar) agentPrompt
  vars.foldl (fun acc kv => replaceAll acc (placeholder kv.1) kv.2) result

/-! ## Regular-expression engine

A small backtracking engine for exactly the constructs appearing in
`EnhancedPatternLibrary`, with Python `re` semantics: leftmost match,
alternatives tried left to right, greedy quantifiers try the longer
repetition first and lazy (`*?`, `+?`) the shorter, capture groups record the
positions of their last participation, `.` does not match a newline, `$`
matches at end of input or before a newline (`re.MULTILINE`), and all
comparisons are case-insensitive (`re.IGNORECASE`, ASCII case folding). -/

/-- One item of a character class: a single character or a range. -/
inductive ClsItem where
  | one (c : Char)
  | rng (lo hi : Char)
deriving DecidableEq, Repr

/-- Regular-expression abstract syntax. -/
inductive RE where
  | eps
  | chr (c : Char)
  | cls (neg : Bool) (items : List ClsItem)
  | any
  | seq (a b : RE)
  | alt (a b : RE)
  | star (greedy : Bool) (a : RE)
  | grp (idx : Nat) (a : RE)
  | bnd
  | eol
deriving DecidableEq, Repr

/-- Raw membership of a character in a class item (no case folding). -/
def inItem (c : Char) : ClsItem → Bool
  | .one c' => c = c'
  | .rng lo hi => lo ≤ c && c ≤ hi

/-- Class membership under `re.IGNORECASE`: the character or one of its two
ASCII case variants lies in an item; negation complements. -/
def matchCls (neg : Bool) (items : List ClsItem) (c : Char) : Bool :=
  let base := items.any (fun it => inItem c it || inItem (lowC c) it || inItem (uppC c) it)
  if neg then !base else base

/-- Python `\w` (word character, ASCII): letter, digit or underscore. -/
def isWordC (c : Char) : Bool :=
  ('a' ≤ c && c ≤ 'z') || ('A' ≤ c && c ≤ 'Z') || isDig c || c = '_'

/-- Capture records: `(group index, start, end)`, most recent first. -/
abbrev Caps := List (Nat × Nat × Nat)

/-- The backtracking matcher, in continuation-passing style.  `orig` is the
whole subject (needed for `\b`), `pos` the current absolute position, `rest`
the remaining suffix (`orig.drop pos`), `caps` the captures recorded so far
and `k` the continuation.  Fuel only bounds the recursion depth; the drivers
always pass enough for the bounded patterns of the library.  A starred body
must consume at least one character per iteration (all starred bodies of the
library do), matching Python's refusal to loop on empty repetitions. -/
def mat (orig : List Char) : Nat → RE → Nat → List Char → Caps →
    (Nat → List Char → Caps → Option (Nat × Caps)) → Option (Nat × Caps)
  | 0, _, _, _, _, _ => none
  | fuel + 1, re, pos, rest, caps, k =>
    match re with
    | .eps => k pos rest caps
    | .chr c =>
      match rest with
      | c' :: rest' => if lowC c = lowC c' then k (pos + 1) rest' caps else none
      | [] => none
    | .cls neg items =>
      match rest with
      | c' :: rest' => if matchCls neg items c' then k (pos + 1) rest' caps else none
      | [] => none
    | .any =>
      match rest with
      | c' :: rest' => if c' = '\n' then none else k (pos + 1) rest' caps
      | [] => none
    | .seq a b =>
      mat orig fuel a pos rest caps (fun p r cp => mat orig fuel b p r cp k)
    | .alt a b =>
      match mat orig fuel a pos rest caps k with
      | some res => some res
      | none => mat orig fuel b pos rest caps k
    | .star greedy a =>
      if greedy then
        match mat orig fuel a pos rest caps
            (fun p r cp => if pos < p then mat orig fuel (.star true a) p r cp k else none) with
        | some res => some res
        | none => k pos rest caps
      else
        match k pos rest caps with
        | some res => some res
        | none =>
          mat orig fuel a pos rest caps
            (fun p r cp => if pos < p then mat orig fuel (.star false a) p r cp k else none)
    | .grp i a =>
      mat orig fuel a pos rest caps (fun p r cp => k p r ((i, pos, p) :: cp))
    | .bnd =>
      let prevW := pos ≠ 0 && isWordC ((orig.drop (pos - 1)).headD ' ')
      let nextW := match rest with | c' :: _ => isWordC c' | [] => false
      if prevW != nextW then k pos rest caps else none
    | .eol =>
      match rest with
      | [] => k pos rest caps
      | c' :: _ => if c' = '\n' then k pos rest caps else none

/-- A match: start, end, captures. -/
structure MRes where
  ms : Nat
  me : Nat
  caps : Caps
deriving DecidableEq, Repr

/-- Fuel bound passed to `mat`: generous for the library's patterns, whose
backtracking depth is linear in the subject with a small constant. -/
def matFuel (orig : List Char) : Nat := (orig.length + 2) * 32 + 600

/-- Try a match starting at each position from `pos` on; first (leftmost)
success wins — the semantics of `re.search`. -/
def searchFrom (orig : List Char) (re : RE) : Nat → List Char → Option MRes
  | pos, rest =>
    match mat orig (matFuel orig) re pos rest [] (fun p _ cp => some (p, cp)) with
    | some (e, cp) => some ⟨pos, e, cp⟩
    | none =>
      match rest with
      | [] => none
      | _ :: rest' => searchFrom orig re (pos + 1) rest'

/-- Source `re.search(pattern, content, re.IGNORECASE | re.MULTILINE)`. -/
def reSearch (s : List Char) (re : RE) : Option MRes := searchFrom s re 0 s

/-- Fuelled worker for `reFinditer`; continues after the end of each match
(non-overlapping matches, an empty match advances by one). -/
def finditerF (orig : List Char) (re : RE) : Nat → Nat → List Char → List MRes
  | 0, _, _ => []
  | fuel + 1, pos, rest =>
    match searchFrom orig re pos rest with
    | none => []
    | some m =>
      let nxt := max m.me (m.ms + 1)
      m :: finditerF orig re fuel nxt (orig.drop nxt)

/-- Source `re.finditer`: all successive non-overlapping leftmost matches. -/
def reFinditer (s : List Char) (re : RE) : List MRes :=
  finditerF s re (s.length + 1) 0 s

/-- Positions of the last participation of group `i`, if any
(`match.group(i)` for an in-range group index). -/
def capLookup (caps : Caps) (i : Nat) : Option (Nat × Nat) :=
  (caps.find? (fun t => t.1 = i)).map (fun t => t.2)

/-- Text of capture group `i` (`None` embedded as `none`). -/
def groupTxt (orig : List Char) (m : MRes) (i : Nat) : Option (List Char) :=
  (capLookup m.caps i).map (fun se => slice orig se.1 se.2)

/-- The whole matched text, `match.group(0)`. -/
def group0 (orig : List Char) (m : MRes) : List Char := slice orig m.ms m.me

/-- Source `match.group(i)` including Python's `IndexError` when `i` exceeds the
number of groups of the pattern: embedded as `Except`. -/
def groupE (orig : List Char) (m : MRes) (ngroups i : Nat) :
    Except (List Char) (Option (List Char)) :=
  if ngroups < i then .error "no such group".toList else .ok (groupTxt orig m i)

/-- Source `match.lastindex` (0 when no group participated; our patterns' group
indices are consecutive from 1, so the maximum recorded index is the index of
the last matched group). -/
def lastIdx (m : MRes) : Nat := m.caps.foldl (fun a t => max a t.1) 0

/-! ### Pattern-building helpers -/

/-- Literal string pattern (matched case-insensitively, like every literal
under `re.IGNORECASE`). -/
def strRE : List Char → RE
  | [] => .eps
  | [c] => .chr c
  | c :: cs => .seq (.chr c) (strRE cs)

/-- Literal from a string literal. -/
def rstr (s : String) : RE := strRE s.toList

/-- Ordered alternation `(?:a|b|…)` (left to right, as Python tries them). -/
def alts : List RE → RE
  | [] => .eps
  | [r] => r
  | r :: rs => .alt r (alts rs)

/-- Ordered concatenation. -/
def cat : List RE → RE
  | [] => .eps
  | [r] => r
  | r :: rs => .seq r (cat rs)

/-- Source `r?` (greedy option). -/
def ropt (r : RE) : RE := .alt r .eps

/-- Source `r+` (greedy). -/
def plus (r : RE) : RE := .seq r (.star true r)

/-- Source `\d`. -/
def dCls : RE := .cls false [.rng '0' '9']

/-- Source `\s`. -/
def sCls : RE := .cls false (wsChars.map .one)

/-- Source `\w`. -/
def wCls : RE := .cls false [.rng 'a' 'z', .rng 'A' 'Z', .rng '0' '9', .one '_']

/-- Source `\s*`. -/
def ws0 : RE := .star true sCls

/-- Source `\s+`. -/
def ws1 : RE := plus sCls

/-- Source `.*?` (lazy). -/
def dotStarL : RE := .star false .any

/-- Source `.+?` (lazy). -/
def dotPlusL : RE := .seq .any (.star false .any)

/-- Source `[A-Z]` (under `IGNORECASE` this matches any ASCII letter). -/
def uAlpha : RE := .cls false [.rng 'A' 'Z']

/-- Source `[a-z]`. -/
def lAlpha : RE := .cls false [.rng 'a' 'z']

/-- Source `[A-Za-z]`. -/
def aAlpha : RE := .cls false [.rng 'A' 'Z', .rng 'a' 'z']

/-- Source `\d{1,2}` (greedy). -/
def d12 : RE := .seq dCls (ropt dCls)

/-- Source `\d{4}`. -/
def d4 : RE := cat [dCls, dCls, dCls, dCls]

/-- Source `[AP]`. -/
def apCls : RE := .cls false [.one 'A', .one 'P']

/-- Source `[-–]`. -/
def dashCls : RE := .cls false [.one '-', .one '–']

/-- Source `(?:to|-|–)`. -/
def toDash : RE := alts [rstr "to", .chr '-', .chr '–']

/-- A pattern together with its number of capture groups (needed to embed
Python's `IndexError` on out-of-range group access). -/
abbrev Pat := RE × Nat

/-! ## Pattern library (`EnhancedPatternLibrary`)

Each definition mirrors one ordered pattern list of the source, with the
original regular expression quoted above each entry. -/

/-- Source list `COMPANY_PATTERNS['name']`:
1. `(?:calling|working at|from|with)\s*["\']?([A-Z][A-Za-z]+(?:\s+[A-Z][A-Za-z]+)*\s*(?:HVAC|Plumbing|Electric|Services?)?)["\']?`
2. `Thank you for calling\s+([^,\.]+)`
3. `Welcome to\s+([^,\.]+)` -/
def companyNamePats : List Pat :=
  [ (cat [alts [rstr "calling", rstr "working at", rstr "from", rstr "with"], ws0,
      ropt (.cls false [.one '"', .one '\'']),
      .grp 1 (cat [uAlpha, plus aAlpha,
        .star true (cat [ws1, uAlpha, plus aAlpha]), ws0,
        ropt (alts [rstr "HVAC", rstr "Plumbing", rstr "Electric",
          .seq (rstr "Service") (ropt (.chr 's'))])]),
      ropt (.cls false [.one '"', .one '\''])], 1),
    (cat [rstr "Thank you for calling", ws1,
      .grp 1 (plus (.cls true [.one ',', .one '.']))], 1),
    (cat [rstr "Welcome to", ws1,
      .grp 1 (plus (.cls true [.one ',', .one '.']))], 1) ]

/-- Source list `COMPANY_PATTERNS['assistant']`:
1. `(?:This is|I\'m|My name is|representative named?|agent named?)\s+([A-Z][a-z]+)`
2. `([A-Z][a-z]+)\s+(?:speaking|here|at your service)`
3. `agent_greeting:.*?This is\s+([A-Z][a-z]+)` -/
def assistantPats : List Pat :=
  [ (cat [alts [rstr "This is", rstr "I'm", rstr "My name is",
      .seq (rstr "representative name") (ropt (.chr 'd')),
      .seq (rstr "agent name") (ropt (.chr 'd'))], ws1,
      .grp 1 (.seq uAlpha (plus lAlpha))], 1),
    (cat [.grp 1 (.seq uAlpha (plus lAlpha)), ws1,
      alts [rstr "speaking", rstr "here", rstr "at your service"]], 1),
    (cat [rstr "agent_greeting:", dotStarL, rstr "This is", ws1,
      .grp 1 (.seq uAlpha (plus lAlpha))], 1) ]

/-- Source list `COMPANY_PATTERNS['greeting']`:
1. `agent_greeting:\s*(.+?)(?:\n|$)`
2. `Thank you for calling.*?(?:This is\s+\w+.*?)?(?:\n|$)` -/
def greetingPats : List Pat :=
  [ (cat [rstr "agent_greeting:", ws0, .grp 1 dotPlusL, .alt (.chr '\n') .eol], 1),
    (cat [rstr "Thank you for calling", dotStarL,
      ropt (cat [rstr "This is", ws1, plus wCls, dotStarL]),
      .alt (.chr '\n') .eol], 0) ]

/-- Source list `FEE_PATTERNS['standard']`:
1. `\$(\d+)\s*(?:dispatch|service call|service|visit)\s*fee`
2. `dispatch fee.*?\$(\d+)`
3. `\$(\d+).*?(?:for|covers?).*?(?:service|repair|diagnosis|cleaning|maintenance)`
4. `Service Call.*?\$(\d+)`
5. `(?:repair|cleaning|maintenance).*?\$(\d+)\s*dispatch` -/
def feeStandardPats : List Pat :=
  [ (cat [.chr '$', .grp 1 (plus dCls), ws0,
      alts [rstr "dispatch", rstr "service call", rstr "service", rstr "visit"],
      ws0, rstr "fee"], 1),
    (cat [rstr "dispatch fee", dotStarL, .chr '$', .grp 1 (plus dCls)], 1),
    (cat [.chr '$', .grp 1 (plus dCls), dotStarL,
      alts [rstr "for", .seq (rstr "cover") (ropt (.chr 's'))], dotStarL,
      alts [rstr "service", rstr "repair", rstr "diagnosis", rstr "cleaning",
        rstr "maintenance"]], 1),
    (cat [rstr "Service Call", dotStarL, .chr '$', .grp 1 (plus dCls)], 1),
    (cat [alts [rstr "repair", rstr "cleaning", rstr "maintenance"], dotStarL,
      .chr '$', .grp 1 (plus dCls), ws0, rstr "dispatch"], 1) ]

/-- Source list `FEE_PATTERNS['emergency']`:
1. `emergency.*?\$(\d+)`
2. `\$(\d+).*?emergency`
3. `Emergency Call.*?\$(\d+)` -/
def feeEmergencyPats : List Pat :=
  [ (cat [rstr "emergency", dotStarL, .chr '$', .grp 1 (plus dCls)], 1),
    (cat [.chr '$', .grp 1 (plus dCls), dotStarL, rstr "emergency"], 1),
    (cat [rstr "Emergency Call", dotStarL, .chr '$', .grp 1 (plus dCls)], 1) ]

/-- Source list `FEE_PATTERNS['estimate']`:
1. `estimate.*?(?:FREE|free|no charge|\$(\d+))`
2. `(?:FREE|free|no charge|\$(\d+)).*?estimate`
3. `Estimate Visit.*?(?:FREE|\$(\d+))`
4. `(?:new installations?|upgrades?|renovations?).*?(?:FREE|\$(\d+))` -/
def feeEstimatePats : List Pat :=
  [ (cat [rstr "estimate", dotStarL,
      alts [rstr "FREE", rstr "free", rstr "no charge",
        .seq (.chr '$') (.grp 1 (plus dCls))]], 1),
    (cat [alts [rstr "FREE", rstr "free", rstr "no charge",
        .seq (.chr '$') (.grp 1 (plus dCls))], dotStarL, rstr "estimate"], 1),
    (cat [rstr "Estimate Visit", dotStarL,
      alts [rstr "FREE", .seq (.chr '$') (.grp 1 (plus dCls))]], 1),
    (cat [alts [.seq (rstr "new installation") (ropt (.chr 's')),
        .seq (rstr "upgrade") (ropt (.chr 's')),
        .seq (rstr "renovation") (ropt (.chr 's'))], dotStarL,
      alts [rstr "FREE", .seq (.chr '$') (.grp 1 (plus dCls))]], 1) ]

/-- Source list `FEE_PATTERNS['member']` (no capture groups):
1. `(?:member|membership).*?(?:WAIVED|waived|no charge|free)`
2. `(?:WAIVED|waived|no charge|free).*?(?:member|membership)`
3. `(?:HEART|Fresh air)\s+Members?.*?(?:waived|free|no charge)` -/
def feeMemberPats : List Pat :=
  [ (cat [alts [rstr "member", rstr "membership"], dotStarL,
      alts [rstr "WAIVED", rstr "waived", rstr "no charge", rstr "free"]], 0),
    (cat [alts [rstr "WAIVED", rstr "waived", rstr "no charge", rstr "free"],
      dotStarL, alts [rstr "member", rstr "membership"]], 0),
    (cat [alts [rstr "HEART", rstr "Fresh air"], ws1, rstr "Member",
      ropt (.chr 's'), dotStarL,
      alts [rstr "waived", rstr "free", rstr "no charge"]], 0) ]

/-- Source list `FEE_PATTERNS['multiple']`:
1. `multiple issues.*?\$(\d+)`
2. `\$(\d+).*?covers everything.*?one visit` -/
def feeMultiplePats : List Pat :=
  [ (cat [rstr "multiple issues", dotStarL, .chr '$', .grp 1 (plus dCls)], 1),
    (cat [.chr '$', .grp 1 (plus dCls), dotStarL, rstr "covers everything",
      dotStarL, rstr "one visit"], 1) ]

/-- Source `(?:Monday|Tuesday|Wednesday|Thursday|Friday)`. -/
def weekdayAlt : RE :=
  alts [rstr "Monday", rstr "Tuesday", rstr "Wednesday", rstr "Thursday", rstr "Friday"]

/-- Source list `SCHEDULING_PATTERNS['days']` (no capture groups):
1. `Monday.*?(?:through|to|-|–).*?Friday`
2. `Mon.*?(?:through|to|-|–).*?Fri`
3. `(?:Monday|…|Friday)(?:\s*,\s*(?:Monday|…|Friday))+`
4. `7\s*days\s*a\s*week`
5. `(?:weekdays|business days)` -/
def dayPats : List Pat :=
  [ (cat [rstr "Monday", dotStarL,
      alts [rstr "through", rstr "to", .chr '-', .chr '–'], dotStarL,
      rstr "Friday"], 0),
    (cat [rstr "Mon", dotStarL,
      alts [rstr "through", rstr "to", .chr '-', .chr '–'], dotStarL,
      rstr "Fri"], 0),
    (cat [weekdayAlt, plus (cat [ws0, .chr ',', ws0, weekdayAlt])], 0),
    (cat [.chr '7', ws0, rstr "days", ws0, .chr 'a', ws0, rstr "week"], 0),
    (alts [rstr "weekdays", rstr "business days"], 0) ]

/-- Source `\d{1,2}:\d{2}\s*[AP]M` (clock time with minutes). -/
def clockTime : RE := cat [d12, .chr ':', dCls, dCls, ws0, apCls, .chr 'M']

/-- Source list `SCHEDULING_PATTERNS['hours']`:
1. `(\d{1,2}:\d{2}\s*[AP]M).*?(?:to|-|–).*?(\d{1,2}:\d{2}\s*[AP]M)`
2. `(\d{1,2})\s*[AP]M.*?(?:to|-|–).*?(\d{1,2})\s*[AP]M` -/
def hourPats : List Pat :=
  [ (cat [.grp 1 clockTime, dotStarL, toDash, dotStarL, .grp 2 clockTime], 2),
    (cat [.grp 1 d12, ws0, apCls, .chr 'M', dotStarL, toDash, dotStarL,
      .grp 2 d12, ws0, apCls, .chr 'M'], 2) ]

/-- Source list `MEMBERSHIP_PATTERNS['program_name']`:
1. `([A-Z][A-Za-z]+)\s+(?:Member|Membership|Program|Club)`
2. `(?:Member|Membership)\s+(?:program|plan|club)\s+(?:called|named)\s+([A-Z][A-Za-z]+)`
3. `(?:HEART|Fresh air)\s+(?:Member|Membership)` — no capture group. -/
def programNamePats : List Pat :=
  [ (cat [.grp 1 (.seq uAlpha (plus aAlpha)), ws1,
      alts [rstr "Member", rstr "Membership", rstr "Program", rstr "Club"]], 1),
    (cat [alts [rstr "Member", rstr "Membership"], ws1,
      alts [rstr "program", rstr "plan", rstr "club"], ws1,
      alts [rstr "called", rstr "named"], ws1,
      .grp 1 (.seq uAlpha (plus aAlpha))], 1),
    (cat [alts [rstr "HEART", rstr "Fresh air"], ws1,
      alts [rstr "Member", rstr "Membership"]], 0) ]

/-- Source list `MEMBERSHIP_PATTERNS['discount']`:
1. `(\d+)%\s*(?:off|discount).*?(?:repair|service)`
2. `(?:repair|service).*?(\d+)%\s*(?:off|discount)`
3. `Members?.*?(?:receive|get|save)\s*(\d+)%` -/
def discountPats : List Pat :=
  [ (cat [.grp 1 (plus dCls), .chr '%', ws0, alts [rstr "off", rstr "discount"],
      dotStarL, alts [rstr "repair", rstr "service"]], 1),
    (cat [alts [rstr "repair", rstr "service"], dotStarL, .grp 1 (plus dCls),
      .chr '%', ws0, alts [rstr "off", rstr "discount"]], 1),
    (cat [rstr "Member", ropt (.chr 's'), dotStarL,
      alts [rstr "receive", rstr "get", rstr "save"], ws0,
      .grp 1 (plus dCls), .chr '%'], 1) ]

/-- Source list `MEMBERSHIP_PATTERNS['warranty']` (no capture groups):
1. `(?:lifetime|permanent|extended|unlimited).*?(?:parts.*?labor\s*)?warranty`
2. `warranty.*?(?:lifetime|permanent|extended|unlimited)` -/
def warrantyPats : List Pat :=
  [ (cat [alts [rstr "lifetime", rstr "permanent", rstr "extended", rstr "unlimited"],
      dotStarL, ropt (cat [rstr "parts", dotStarL, rstr "labor", ws0]),
      rstr "warranty"], 0),
    (cat [rstr "warranty", dotStarL,
      alts [rstr "lifetime", rstr "permanent", rstr "extended", rstr "unlimited"]], 0) ]

/-- Source list `MEMBERSHIP_PATTERNS['benefits']` (no capture groups):
1. `(?:waive|no|free).*?(?:dispatch|service).*?fee`
2. `(?:priority|preferred).*?(?:scheduling|service)`
3. `(?:annual|yearly).*?(?:inspection|tune-up|maintenance)`
4. `never pay.*?charge.*?(?:inspect|visit)` -/
def benefitPats : List Pat :=
  [ (cat [alts [rstr "waive", rstr "no", rstr "free"], dotStarL,
      alts [rstr "dispatch", rstr "service"], dotStarL, rstr "fee"], 0),
    (cat [alts [rstr "priority", rstr "preferred"], dotStarL,
      alts [rstr "scheduling", rstr "service"]], 0),
    (cat [alts [rstr "annual", rstr "yearly"], dotStarL,
      alts [rstr "inspection", rstr "tune-up", rstr "maintenance"]], 0),
    (cat [rstr "never pay", dotStarL, rstr "charge", dotStarL,
      alts [rstr "inspect", rstr "visit"]], 0) ]

/-- Source list `METRICS_PATTERNS['experience']`:
1. `(\d+)\+?\s*years?.*?(?:experience|serving|business|operation)`
2. `(?:over|more than)\s+(\d+)\s*years?`
3. `(?:established|founded|since).*?(\d{4})`
4. `serving.*?(?:for|over)\s*(\d+)\s*years?` -/
def experiencePats : List Pat :=
  [ (cat [.grp 1 (plus dCls), ropt (.chr '+'), ws0, rstr "year", ropt (.chr 's'),
      dotStarL,
      alts [rstr "experience", rstr "serving", rstr "business", rstr "operation"]], 1),
    (cat [alts [rstr "over", rstr "more than"], ws1, .grp 1 (plus dCls), ws0,
      rstr "year", ropt (.chr 's')], 1),
    (cat [alts [rstr "established", rstr "founded", rstr "since"], dotStarL,
      .grp 1 d4], 1),
    (cat [rstr "serving", dotStarL, alts [rstr "for", rstr "over"], ws0,
      .grp 1 (plus dCls), ws0, rstr "year", ropt (.chr 's')], 1) ]

/-- Source `\d+[,\d]*` (a count possibly with thousands separators). -/
def countRE : RE := .seq (plus dCls) (.star true (.cls false [.one ',', .rng '0' '9']))

/-- Source list `METRICS_PATTERNS['reviews']`:
1. `(\d+[,\d]*)\+?\s*(?:five-star|5-star)?\s*reviews?`
2. `(?:over|more than)\s+(\d+[,\d]*)\s*(?:customer)?\s*reviews?`
3. `(?:earned|received)\s*(\d+[,\d]*)\+?\s*reviews?` -/
def reviewPats : List Pat :=
  [ (cat [.grp 1 countRE, ropt (.chr '+'), ws0,
      ropt (alts [rstr "five-star", rstr "5-star"]), ws0, rstr "review",
      ropt (.chr 's')], 1),
    (cat [alts [rstr "over", rstr "more than"], ws1, .grp 1 countRE, ws0,
      ropt (rstr "customer"), ws0, rstr "review", ropt (.chr 's')], 1),
    (cat [alts [rstr "earned", rstr "received"], ws0, .grp 1 countRE,
      ropt (.chr '+'), ws0, rstr "review", ropt (.chr 's')], 1) ]

/-- Source list `METRICS_PATTERNS['resolution_rate']`:
1. `(\d+)\s*(?:out of|times out of)\s*(\d+)`
2. `(\d+)%\s*(?:same-day|first-visit)?\s*resolution`
3. `fix.*?same-day.*?(\d+)\s*(?:out of|times)` — only one capture group. -/
def resolutionPats : List Pat :=
  [ (cat [.grp 1 (plus dCls), ws0, alts [rstr "out of", rstr "times out of"],
      ws0, .grp 2 (plus dCls)], 2),
    (cat [.grp 1 (plus dCls), .chr '%', ws0,
      ropt (alts [rstr "same-day", rstr "first-visit"]), ws0,
      rstr "resolution"], 1),
    (cat [rstr "fix", dotStarL, rstr "same-day", dotStarL, .grp 1 (plus dCls),
      ws0, alts [rstr "out of", rstr "times"]], 1) ]

/-- Source list `METRICS_PATTERNS['notification']`:
1. `(\d+)[-–](\d+)\s*minutes?\s*(?:before|ahead|prior)`
2. `(?:call|notify).*?(\d+).*?minutes?\s*(?:before|ahead)`
3. `call.*?ahead.*?(\d+)[-–]?(\d*)\s*minutes?` -/
def notificationPats : List Pat :=
  [ (cat [.grp 1 (plus dCls), dashCls, .grp 2 (plus dCls), ws0, rstr "minute",
      ropt (.chr 's'), ws0, alts [rstr "before", rstr "ahead", rstr "prior"]], 2),
    (cat [alts [rstr "call", rstr "notify"], dotStarL, .grp 1 (plus dCls),
      dotStarL, rstr "minute", ropt (.chr 's'), ws0,
      alts [rstr "before", rstr "ahead"]], 1),
    (cat [rstr "call", dotStarL, rstr "ahead", dotStarL, .grp 1 (plus dCls),
      ropt dashCls, .grp 2 (.star true dCls), ws0, rstr "minute",
      ropt (.chr 's')], 2) ]

/-- Source `[A-Za-z\s]`. -/
def alphaWs : RE := .cls false ([.rng 'A' 'Z', .rng 'a' 'z'] ++ wsChars.map .one)

/-- Source list `METRICS_PATTERNS['service_area']`:
1. `(?:serving|service area|coverage).*?([A-Za-z\s]+(?:and|&)\s*(?:surrounding|nearby)\s*(?:areas?|cities|towns))`
2. `([A-Za-z\s]+)\s*(?:metro|metropolitan)?\s*area`
3. `serves?\s+([A-Za-z\s]+\s*(?:and|&)?\s*(?:surrounding areas?)?)` -/
def serviceAreaPats : List Pat :=
  [ (cat [alts [rstr "serving", rstr "service area", rstr "coverage"], dotStarL,
      .grp 1 (cat [plus alphaWs, alts [rstr "and", .chr '&'], ws0,
        alts [rstr "surrounding", rstr "nearby"], ws0,
        alts [.seq (rstr "area") (ropt (.chr 's')), rstr "cities", rstr "towns"]])],
      1),
    (cat [.grp 1 (plus alphaWs), ws0, ropt (alts [rstr "metro", rstr "metropolitan"]),
      ws0, rstr "area"], 1),
    (cat [rstr "serve", ropt (.chr 's'), ws1,
      .grp 1 (cat [plus alphaWs, ws0, ropt (alts [rstr "and", .chr '&']), ws0,
        ropt (.seq (rstr "surrounding area") (ropt (.chr 's')))])], 1) ]

/-- Source `PAYMENT_PATTERNS` (ordered as the source dict), each a single
presence pattern:
`credit_debit`: `(?:credit|debit)(?:\s*(?:and|&|/)\s*debit)?\s*cards?|major credit cards`
`cash`: `\bcash\b`
`check`: `\bcheck\b`
`financing`: `(?:financing|payment plans?|installments?|no[- ]interest)`
`online`: `(?:online payment|pay online|digital payment)`
`ach`: `(?:ACH|bank transfer|wire transfer)` -/
def paymentPats : List (List Char × RE) :=
  [ ("credit_debit".toList,
      .alt (cat [alts [rstr "credit", rstr "debit"],
        ropt (cat [ws0, alts [rstr "and", .chr '&', .chr '/'], ws0, rstr "debit"]),
        ws0, rstr "card", ropt (.chr 's')]) (rstr "major credit cards")),
    ("cash".toList, cat [.bnd, rstr "cash", .bnd]),
    ("check".toList, cat [.bnd, rstr "check", .bnd]),
    ("financing".toList,
      alts [rstr "financing", .seq (rstr "payment plan") (ropt (.chr 's')),
        .seq (rstr "installment") (ropt (.chr 's')),
        cat [rstr "no", .cls false [.one '-', .one ' '], rstr "interest"]]),
    ("online".toList,
      alts [rstr "online payment", rstr "pay online", rstr "digital payment"]),
    ("ach".toList,
      alts [rstr "ACH", rstr "bank transfer", rstr "wire transfer"]) ]

/-- Source inner pattern `no[- ]interest` used by `_detect_payment_info`. -/
def noInterestRE : RE := cat [rstr "no", .cls false [.one '-', .one ' '], rstr "interest"]

/-- Source `SERVICE_PATTERNS` (ordered as the source dict):
`HVAC`: `(?:HVAC|heating|cooling|air\s*conditioning|furnace|AC|heat\s*pump)`
`Plumbing`: `(?:plumb(?:ing|er)|pipe|drain|water\s*heater|faucet|toilet|sink)`
`Electrical`: `(?:electric(?:al|ian)?|wiring|outlet|breaker|panel|lighting)`
`Emergency`: `emergency\s*(?:service|repair|call|response)`
`Maintenance`: `(?:maintenance|tune[- ]up|inspection|preventive|cleaning)`
`Installation`: `(?:installation|install|replacement|upgrade)`
`Repair`: `(?:repair|fix|service|troubleshoot)` -/
def servicePats : List (List Char × RE) :=
  [ ("HVAC".toList,
      alts [rstr "HVAC", rstr "heating", rstr "cooling",
        cat [rstr "air", ws0, rstr "conditioning"], rstr "furnace", rstr "AC",
        cat [rstr "heat", ws0, rstr "pump"]]),
    ("Plumbing".toList,
      alts [.seq (rstr "plumb") (alts [rstr "ing", rstr "er"]), rstr "pipe",
        rstr "drain", cat [rstr "water", ws0, rstr "heater"], rstr "faucet",
        rstr "toilet", rstr "sink"]),
    ("Electrical".toList,
      alts [.seq (rstr "electric") (ropt (alts [rstr "al", rstr "ian"])),
        rstr "wiring", rstr "outlet", rstr "breaker", rstr "panel",
        rstr "lighting"]),
    ("Emergency".toList,
      cat [rstr "emergency", ws0,
        alts [rstr "service", rstr "repair", rstr "call", rstr "response"]]),
    ("Maintenance".toList,
      alts [rstr "maintenance",
        cat [rstr "tune", .cls false [.one '-', .one ' '], rstr "up"],
        rstr "inspection", rstr "preventive", rstr "cleaning"]),
    ("Installation".toList,
      alts [rstr "installation", rstr "install", rstr "replacement", rstr "upgrade"]),
    ("Repair".toList,
      alts [rstr "repair", rstr "fix", rstr "service", rstr "troubleshoot"]) ]

/-- Source `RULE_PATTERNS` (ordered as the source dict), no capture groups:
`scheduling`:
1. `(?:NEVER|never|ALWAYS|always|MUST|must|ONLY|only).*?(?:availability|appointment|schedule|slot|book)`
2. `(?:CRITICAL|critical).*?(?:scheduling|booking|availability)`
3. `NEVER END A CALL WITHOUT BOOKING`
`pricing`:
1. `(?:NEVER|never|ALWAYS|always).*?(?:price|quote|estimate).*?(?:phone|call)`
2. `DO NOT provide.*?pricing`
`service`:
1. `(?:DO NOT|don\'t|cannot|will not).*?(?:service|work on|handle)` -/
def rulePats : List (List Char × List RE) :=
  [ ("scheduling".toList,
      [ cat [alts [rstr "NEVER", rstr "never", rstr "ALWAYS", rstr "always",
          rstr "MUST", rstr "must", rstr "ONLY", rstr "only"], dotStarL,
          alts [rstr "availability", rstr "appointment", rstr "schedule",
            rstr "slot", rstr "book"]],
        cat [alts [rstr "CRITICAL", rstr "critical"], dotStarL,
          alts [rstr "scheduling", rstr "booking", rstr "availability"]],
        rstr "NEVER END A CALL WITHOUT BOOKING" ]),
    ("pricing".toList,
      [ cat [alts [rstr "NEVER", rstr "never", rstr "ALWAYS", rstr "always"],
          dotStarL, alts [rstr "price", rstr "quote", rstr "estimate"], dotStarL,
          alts [rstr "phone", rstr "call"]],
        cat [rstr "DO NOT provide", dotStarL, rstr "pricing"] ]),
    ("service".toList,
      [ cat [alts [rstr "DO NOT", rstr "don't", rstr "cannot", rstr "will not"],
          dotStarL, alts [rstr "service", rstr "work on", rstr "handle"]] ]) ]

/-! ## Data model (`@dataclass` records of the source) -/

/-- Dataclass `CompanyInfo`. -/
structure CompanyInfo where
  company_name : List Char := []
  assistant_name : List Char := []
  greeting : List Char := []
  tagline : List Char := []
deriving DecidableEq, Repr

/-- Dataclass `DispatchFee`. -/
structure DispatchFee where
  service_type : List Char
  amount : List Char
  conditions : List Char := []
  notes : List Char := []
deriving DecidableEq, Repr

/-- Dataclass `SchedulingInfo`. -/
structure SchedulingInfo where
  operating_days : List (List Char) := []
  total_hours : List Char := []
  morning_slots : List Char := []
  afternoon_slots : List Char := []
  emergency_hours : List Char := []
deriving DecidableEq, Repr

/-- Dataclass `MembershipBenefits`. -/
structure MembershipBenefits where
  program_name : List Char := []
  dispatch_fee : List Char := []
  repair_discount : List Char := []
  warranty : List Char := []
  other_benefits : List (List Char) := []
deriving DecidableEq, Repr

/-- Dataclass `OperationalMetrics`. -/
structure OperationalMetrics where
  same_day_resolution : List Char := []
  call_ahead_notification : List Char := []
  company_experience : List Char := []
  customer_reviews : List Char := []
  service_area : List Char := []
  response_time : List Char := []
deriving DecidableEq, Repr

/-- Dataclass `PaymentInfo`. -/
structure PaymentInfo where
  accepted_methods : List (List Char) := []
  payment_plans : List Char := []
  billing_terms : List Char := []
deriving DecidableEq, Repr

/-- Dataclass `ServiceCategory`. -/
structure ServiceCategory where
  name : List Char
  description : List Char := []
  subcategories : List (List Char) := []
deriving DecidableEq, Repr

/-- Dataclass `SchedulingRule`. -/
structure SchedulingRule where
  rule_type : List Char
  description : List Char
  priority : List Char := "normal".toList
deriving DecidableEq, Repr

/-- The `raw_data` dictionary stored by `detect` (`content_length`,
`extraction_complete`, `extracted_at`). -/
structure RawData where
  content_length : Nat := 0
  extraction_complete : Bool := false
  extracted_at : List Char := []
deriving DecidableEq, Repr

/-- Dataclass `ExtractedServiceInfo`. -/
structure ExtractedServiceInfo where
  company_info : CompanyInfo := {}
  dispatch_fees : List DispatchFee := []
  scheduling : SchedulingInfo := {}
  membership : MembershipBenefits := {}
  metrics : OperationalMetrics := {}
  payment : PaymentInfo := {}
  service_categories : List ServiceCategory := []
  scheduling_rules : List SchedulingRule := []
  raw_data : RawData := {}
deriving DecidableEq, Repr

/-! ## Detection engine (`EnhancedServiceDetector`) -/

/-- First-match cascade: try each pattern of a list in order with
`re.search`; on the first match return it together with the pattern's group
count (the `for pattern in …: if match: …; break` idiom of the source). -/
def firstSearch (content : List Char) : List Pat → Option (Nat × MRes)
  | [] => none
  | (r, ng) :: ps =>
    match reSearch content r with
    | some m => some (ng, m)
    | none => firstSearch content ps

/-- Like `firstSearch` but also reporting the 0-based index of the first
pattern that matched. -/
def firstSearchIdx (content : List Char) (ps : List Pat) : Option (Nat × Nat × MRes) :=
  go 0 ps
where
  go (i : Nat) : List Pat → Option (Nat × Nat × MRes)
    | [] => none
    | (r, ng) :: ps =>
      match reSearch content r with
      | some m => some (i, ng, m)
      | none => go (i + 1) ps

/-- Python truthiness of `Optional[int]` (`None` and `0` are falsy). -/
def truthyNat : Option Nat → Bool
  | some n => n ≠ 0
  | none => false

/-- Source `EnhancedServiceDetector._detect_company_info`. -/
def detectCompanyInfo (content : List Char) : CompanyInfo :=
  let nm := match firstSearch content companyNamePats with
    | some (_, m) => stripChars " \"',".toList ((groupTxt content m 1).getD [])
    | none => []
  let asst := match firstSearch content assistantPats with
    | some (_, m) => (groupTxt content m 1).getD []
    | none => []
  let greet := match firstSearch content greetingPats with
    | some (_, m) => stripWs (group0 content m)
    | none => []
  { company_name := nm, assistant_name := asst, greeting := greet }

/-- One step of the standard-fee loop of
`EnhancedServiceDetector._detect_dispatch_fees`: context-window
classification of the service type, then append unless the key
`"standard_" + amount` was already seen. -/
def stdFeeStep (content : List Char) (acc : List DispatchFee × List (List Char))
    (m : MRes) : List DispatchFee × List (List Char) :=
  let amount := '$' :: (groupTxt content m 1).getD []
  let feeKey := "standard_".toList ++ amount
  if acc.2.contains feeKey then acc
  else
    let context := slice content (m.ms - 100) (m.me + 100)
    let serviceType :=
      if containsSubCI context "repair".toList then "Service Call (Repairs)".toList
      else if containsSubCI context "cleaning".toList
          || containsSubCI context "maintenance".toList then
        "Service Call (Cleaning/Maintenance)".toList
      else "Standard Service Call".toList
    (acc.1 ++ [{ service_type := serviceType, amount := amount,
                 conditions := "credited toward work if customer proceeds".toList }],
      feeKey :: acc.2)

/-- The standard-fee loop of `_detect_dispatch_fees`: all matches of all
standard patterns folded through `stdFeeStep` (fees plus seen keys). -/
def stdFees (content : List Char) : List DispatchFee × List (List Char) :=
  feeStandardPats.foldl
    (fun acc pat => (reFinditer content pat.1).foldl (stdFeeStep content) acc)
    ([], [])

/-- The emergency-fee branch of `_detect_dispatch_fees` (first match only).
-/
def emerFee (content : List Char) : List DispatchFee :=
  match firstSearch content feeEmergencyPats with
  | some (_, m) =>
    [{ service_type := "Emergency Call".toList,
       amount := '$' :: (groupTxt content m 1).getD [],
       conditions := "credited toward work if customer proceeds".toList }]
  | none => []

/-- The estimate-fee branch of `_detect_dispatch_fees`: `FREE` when the
matched text mentions "free", else the captured amount, else the `$49`
default. -/
def estFee (content : List Char) : List DispatchFee :=
  match firstSearch content feeEstimatePats with
  | some (_, m) =>
    let amount :=
      if containsSubCI (group0 content m) "free".toList then "FREE".toList
      else match groupTxt content m 1 with
        | some g => if g ≠ [] then '$' :: g else "$49".toList
        | none => "$49".toList
    [{ service_type := "Estimate Visit".toList, amount := amount,
       conditions := "for new installations, upgrades, renovations".toList }]
  | none => []

/-- The member-fee branch of `_detect_dispatch_fees`. -/
def membFee (content : List Char) : List DispatchFee :=
  match firstSearch content feeMemberPats with
  | some _ =>
    [{ service_type := "Members".toList, amount := "WAIVED".toList,
       conditions := "for program members".toList }]
  | none => []

/-- The multiple-issues branch of `_detect_dispatch_fees`. -/
def multFee (content : List Char) : List DispatchFee :=
  match firstSearch content feeMultiplePats with
  | some (_, m) =>
    [{ service_type := "Multiple Issues".toList,
       amount := '$' :: (groupTxt content m 1).getD [],
       conditions := "covers everything in one visit".toList }]
  | none => []

/-- Source `EnhancedServiceDetector._detect_dispatch_fees`: all standard-fee matches
of all standard patterns (deduplicated by the `standard_$amount` key), then
at most one emergency, estimate, member and multiple-issues fee, in append
order. -/
def detectDispatchFees (content : List Char) : List DispatchFee :=
  (stdFees content).1 ++ emerFee content ++ estFee content ++ membFee content
    ++ multFee content

/-- Source `EnhancedServiceDetector._parse_hour`: `re.match(r'(\d{1,2})', t)` takes
the leading one or two digits; `'PM' in t.upper() and hour != 12` adds 12,
`elif 'AM' in t.upper() and hour == 12` zeroes. -/
def parseHour (t : List Char) : Option Nat :=
  match t with
  | [] => none
  | c1 :: rest =>
    if isDig c1 then
      let h := match rest with
        | c2 :: _ => if isDig c2 then digVal c1 * 10 + digVal c2 else digVal c1
        | [] => digVal c1
      let up := uppStr t
      if containsSub up "PM".toList ∧ h ≠ 12 then some (h + 12)
      else if containsSub up "AM".toList ∧ h = 12 then some 0
      else some h
    else none

/-- All seven weekday names, Monday first (the list literal of the source). -/
def allWeek : List (List Char) :=
  ["Monday".toList, "Tuesday".toList, "Wednesday".toList, "Thursday".toList,
   "Friday".toList, "Saturday".toList, "Sunday".toList]

/-- Monday through Friday (the list literal of the source). -/
def monFri : List (List Char) :=
  ["Monday".toList, "Tuesday".toList, "Wednesday".toList, "Thursday".toList,
   "Friday".toList]

/-- Source `EnhancedServiceDetector._detect_scheduling`. -/
def detectScheduling (content : List Char) : SchedulingInfo :=
  let days := match firstSearch content dayPats with
    | some (_, m) =>
      let t := lowStr (group0 content m)
      if containsSub t "7 days".toList then allWeek
      else if containsSub t "weekday".toList
          || containsSub t "business day".toList then monFri
      else monFri
    | none => []
  match firstSearch content hourPats with
  | some (_, m) =>
    let g1 := (groupTxt content m 1).getD []
    let g2 := (groupTxt content m 2).getD []
    let total := g1 ++ " - ".toList ++ g2
    let sh := parseHour g1
    let eh := parseHour g2
    if truthyNat sh && truthyNat eh then
      let morning := if sh.getD 0 < 12 then g1 ++ " - 12:00 PM".toList else []
      let afternoon :=
        if 12 < eh.getD 0 then
          if containsSub content "5:00 PM".toList
              || containsSub content "5 PM".toList then
            "12:00 PM - 5:00 PM".toList
          else "12:00 PM - ".toList ++ g2
        else []
      { operating_days := days, total_hours := total, morning_slots := morning,
        afternoon_slots := afternoon }
    else
      { operating_days := days, total_hours := total }
  | none => { operating_days := days }

/-- One step of the benefits loop of
`EnhancedServiceDetector._detect_membership_benefits` (an `if/elif` chain on
the matched text, appending a canonical phrase unless already present). -/
def benefitStep (content : List Char) (acc : List Char × List (List Char))
    (m : MRes) : List Char × List (List Char) :=
  let t := lowStr (group0 content m)
  if containsSub t "waive".toList || containsSub t "free".toList then
    let bs := if acc.2.contains "Free service visits".toList then acc.2
      else acc.2 ++ ["Free service visits".toList]
    ("WAIVED".toList, bs)
  else if containsSub t "priority".toList then
    let bs := if acc.2.contains "Priority scheduling".toList then acc.2
      else acc.2 ++ ["Priority scheduling".toList]
    (acc.1, bs)
  else if containsSub t "never pay".toList then
    let bs := if acc.2.contains "No charge for expert inspections".toList then acc.2
      else acc.2 ++ ["No charge for expert inspections".toList]
    (acc.1, bs)
  else acc

/-- Source `EnhancedServiceDetector._detect_membership_benefits`.  The program-name
branch for the third pattern (which has no capture group) accesses
`match.group(1)`; in Python that raises `IndexError`, embedded here through
`Except`. -/
def detectMembership (content : List Char) : Except (List Char) MembershipBenefits := do
  let program ← match firstSearch content programNamePats with
    | some (ng, m) =>
      let g0 := group0 content m
      if g0 ≠ [] then
        if containsSub g0 "HEART".toList then pure "HEART Membership".toList
        else if containsSub g0 "Fresh air".toList then pure "Fresh air Membership".toList
        else do
          let g1 ← groupE content m ng 1
          pure (g1.getD [] ++ " Membership".toList)
      else pure []
    | none => pure []
  let disc := match firstSearch content discountPats with
    | some (_, m) => (groupTxt content m 1).getD [] ++ "% off all repairs".toList
    | none => []
  let warr := match firstSearch content warrantyPats with
    | some _ => "Lifetime parts and labor warranty".toList
    | none => []
  let benefits := benefitPats.foldl
    (fun acc pat => (reFinditer content pat.1).foldl (benefitStep content) acc)
    ([], [])
  pure { program_name := program, dispatch_fee := benefits.1,
         repair_discount := disc, warranty := warr,
         other_benefits := benefits.2 }

/-- Source `EnhancedServiceDetector._detect_metrics`.  The resolution-rate branch
accesses `match.group(2)` whenever the matched text contains `'out of'`,
which raises `IndexError` for the third pattern (one capture group only);
embedded through `Except`. -/
def detectMetrics (content : List Char) : Except (List Char) OperationalMetrics := do
  let exper := match firstSearch content experiencePats with
    | some (_, m) =>
      let years := (groupTxt content m 1).getD []
      if containsSubCI content "colorado".toList then
        years ++ "+ years in Colorado".toList
      else years ++ "+ years".toList
    | none => []
  let revs := match firstSearch content reviewPats with
    | some (_, m) =>
      let count := ((groupTxt content m 1).getD []).filter (· ≠ ',')
      if containsSubCI (group0 content m) "five-star".toList
          || containsSubCI (group0 content m) "5-star".toList then
        count ++ "+ five-star reviews".toList
      else count ++ "+ reviews".toList
    | none => []
  let resol ← match firstSearch content resolutionPats with
    | some (ng, m) =>
      if containsSub (group0 content m) "out of".toList then do
        let g2 ← groupE content m ng 2
        pure ((groupTxt content m 1).getD [] ++ " out of ".toList ++ g2.getD []
          ++ " times".toList)
      else
        pure ((groupTxt content m 1).getD [] ++ "% same-day resolution".toList)
    | none => pure []
  let notif := match firstSearch content notificationPats with
    | some (_, m) =>
      let g2ok := match groupTxt content m 2 with
        | some t => decide (1 < lastIdx m) && t ≠ []
        | none => false
      if g2ok then
        (groupTxt content m 1).getD [] ++ "-".toList ++ (groupTxt content m 2).getD []
          ++ " minutes before arrival".toList
      else (groupTxt content m 1).getD [] ++ " minutes before arrival".toList
    | none => []
  let area := match firstSearch content serviceAreaPats with
    | some (_, m) => stripWs ((groupTxt content m 1).getD [])
    | none => []
  pure { same_day_resolution := resol, call_ahead_notification := notif,
         company_experience := exper, customer_reviews := revs,
         service_area := area }

/-- Source `EnhancedServiceDetector._detect_payment_info`. -/
def detectPaymentInfo (content : List Char) : PaymentInfo :=
  let step := fun (acc : List (List Char) × List Char) (p : List Char × RE) =>
    if (reSearch content p.2).isSome then
      if p.1 = "credit_debit".toList then (acc.1 ++ ["Credit/Debit Cards".toList], acc.2)
      else if p.1 = "cash".toList then (acc.1 ++ ["Cash".toList], acc.2)
      else if p.1 = "check".toList then (acc.1 ++ ["Check".toList], acc.2)
      else if p.1 = "financing".toList then
        if (reSearch content noInterestRE).isSome then
          (acc.1 ++ ["No-interest payment plans".toList],
            "No-interest payment plans (for qualifying projects)".toList)
        else (acc.1 ++ ["Payment Plans".toList], acc.2)
      else if p.1 = "online".toList then (acc.1 ++ ["Online Payment".toList], acc.2)
      else if p.1 = "ach".toList then (acc.1 ++ ["ACH/Bank Transfer".toList], acc.2)
      else acc
    else acc
  let res := paymentPats.foldl step ([], [])
  { accepted_methods := res.1, payment_plans := res.2 }

/-- Subcategory detection of
`EnhancedServiceDetector._detect_service_categories` for one category. -/
def subcatsFor (content : List Char) (catName : List Char) : List (List Char) :=
  let pres := fun (r : RE) => (reSearch content r).isSome
  if catName = "HVAC".toList then
    (if pres (rstr "heating") then ["Heating".toList] else []) ++
    (if pres (alts [rstr "cooling", cat [rstr "air", ws0, rstr "conditioning"],
        rstr "AC"]) then ["Cooling".toList] else []) ++
    (if pres (rstr "furnace") then ["Furnace".toList] else [])
  else if catName = "Plumbing".toList then
    (if pres (rstr "drain") then ["Drain Services".toList] else []) ++
    (if pres (cat [rstr "water", ws0, rstr "heater"]) then ["Water Heater".toList] else []) ++
    (if pres (rstr "pipe") then ["Pipe Repair".toList] else []) ++
    (if pres (rstr "faucet") then ["Faucet Repair".toList] else []) ++
    (if pres (rstr "toilet") then ["Toilet Services".toList] else [])
  else if catName = "Electrical".toList then
    (if pres (rstr "panel") then ["Panel Upgrades".toList] else []) ++
    (if pres (rstr "wiring") then ["Wiring".toList] else []) ++
    (if pres (rstr "lighting") then ["Lighting".toList] else []) ++
    (if pres (rstr "outlet") then ["Outlets".toList] else [])
  else []

/-- Source `EnhancedServiceDetector._detect_service_categories`. -/
def detectServiceCategories (content : List Char) : List ServiceCategory :=
  servicePats.foldl
    (fun acc p =>
      if (reSearch content p.2).isSome then
        acc ++ [{ name := p.1, subcategories := subcatsFor content p.1 }]
      else acc) []

/-- The priority keyword set of `_detect_scheduling_rules`. -/
def priorityWords : List (List Char) :=
  ["CRITICAL".toList, "NEVER".toList, "ALWAYS".toList, "MUST".toList]

/-- One step of `_detect_scheduling_rules`: classify priority from the full
matched text, skip if some stored rule's description equals that full text,
otherwise append with the description truncated to 200 characters. -/
def addRule (rules : List SchedulingRule) (ty text : List Char) :
    List SchedulingRule :=
  let priority := if priorityWords.any (fun w => containsSub (uppStr text) w)
    then "critical".toList else "normal".toList
  if rules.any (fun r => r.description = text) then rules
  else rules ++ [{ rule_type := ty, description := text.take 200,
                   priority := priority }]

/-- The `(rule_type, stripped matched text)` pairs visited by the triple loop
of `_detect_scheduling_rules`, in visiting order. -/
def ruleMatchTexts (content : List Char) : List (List Char × List Char) :=
  rulePats.flatMap (fun tp =>
    tp.2.flatMap (fun r =>
      (reFinditer content r).map (fun m => (tp.1, stripWs (group0 content m)))))

/-- Source `EnhancedServiceDetector._detect_scheduling_rules`. -/
def detectSchedulingRules (content : List Char) : List SchedulingRule :=
  (ruleMatchTexts content).foldl (fun rs t => addRule rs t.1 t.2) []

/-- Source `EnhancedServiceDetector._has_detected_info`: the eight designated
fields whose non-emptiness makes the record count as "detected". -/
def hasDetectedInfo (i : ExtractedServiceInfo) : Bool :=
  !i.company_info.company_name.isEmpty
    || !i.dispatch_fees.isEmpty
    || !i.scheduling.operating_days.isEmpty
    || !i.membership.program_name.isEmpty
    || !i.metrics.company_experience.isEmpty
    || !i.payment.accepted_methods.isEmpty
    || !i.service_categories.isEmpty
    || !i.scheduling_rules.isEmpty

/-- The body of `EnhancedServiceDetector.detect` inside its `try:` block,
with the wall-clock timestamp `datetime.now().isoformat()` passed in as the
explicit parameter `now`.  An uncaught Python exception is an `Except.error`.
-/
def detectBodyAt (now content : List Char) :
    Except (List Char) ExtractedServiceInfo := do
  let company := detectCompanyInfo content
  let fees := detectDispatchFees content
  let sched := detectScheduling content
  let memb ← detectMembership content
  let mets ← detectMetrics content
  let pay := detectPaymentInfo content
  let cats := detectServiceCategories content
  let rules := detectSchedulingRules content
  pure { company_info := company, dispatch_fees := fees, scheduling := sched,
         membership := memb, metrics := mets, payment := pay,
         service_categories := cats, scheduling_rules := rules,
         raw_data := { content_length := content.length,
                       extraction_complete := true, extracted_at := now } }

/-- Source `EnhancedServiceDetector.detect`: empty content yields `None`; any
exception in the body is caught and yields `None`; a populated record is
returned only when `_has_detected_info` holds, else `None`. -/
def detectAt (now content : List Char) : Option ExtractedServiceInfo :=
  if content = [] then none
  else
    match detectBodyAt now content with
    | .error _ => none
    | .ok info => if hasDetectedInfo info then some info else none

/-! ## Auxiliary definitions used by the verification statements -/

/-- A string containing neither brace character. -/
def BraceFree (l : List Char) : Prop := '{' ∉ l ∧ '}' ∉ l

instance (l : List Char) : Decidable (BraceFree l) := by
  unfold BraceFree; infer_instance

/-- A template shape: alternating brace-free segments and `{id}` placeholders
whose identifiers are brace-free, non-empty and satisfy `P`. -/
inductive AltShape (P : List Char → Prop) : List Char → Prop where
  | seg : ∀ s, BraceFree s → AltShape P s
  | cons : ∀ s id t, BraceFree s → BraceFree id → id ≠ [] → P id →
      AltShape P t → AltShape P (s ++ '{' :: (id ++ '}' :: t))

/-- Fuelled worker for `simpleOK`.  At a `{`, the identifier run (free of
both braces) must be non-empty and immediately closed by `}`; a stray `}`
fails; other characters are skipped. -/
def simpleOKF : Nat → List Char → Bool
  | 0, l => l.isEmpty
  | _ + 1, [] => true
  | fuel + 1, c :: rest =>
    if c = '{' then
      let id := rest.takeWhile (fun d => d ≠ '}' && d ≠ '{')
      let rest' := rest.dropWhile (fun d => d ≠ '}' && d ≠ '{')
      if id ≠ [] ∧ rest'.headD ' ' = '}' then simpleOKF fuel rest'.tail
      else false
    else if c = '}' then false
    else simpleOKF fuel rest

/-- Decidable check that a template is an alternation of brace-free segments
and simple `{identifier}` placeholders (no stray or nested braces). -/
def simpleOK (l : List Char) : Bool := simpleOKF l.length l

/-- Modelled from the spec's wording of the hour-parsing rule: take the
leading one-to-two-digit run as the hour, add 12 when a `PM` marker is
present and the hour is not 12, zero the hour when an `AM` marker is present
and the hour is 12.  Compared against `parseHour`, the translation of
`_parse_hour`, in the C9 theorem. -/
def parseHourSpec (t : List Char) : Option Nat :=
  let digits := (t.takeWhile isDig).take 2
  if digits = [] then none
  else
    let h := natOfDigits digits
    if containsSub (uppStr t) "PM".toList ∧ h ≠ 12 then some (h + 12)
    else if containsSub (uppStr t) "AM".toList ∧ h = 12 then some 0
    else some h

/-- The pattern-library category a stored `DispatchFee` originated from,
recovered from its `service_type` label (the three context-dependent labels
of the standard loop all map to `standard`). -/
def feeCat (f : DispatchFee) : List Char :=
  if f.service_type = "Standard Service Call".toList
      ∨ f.service_type = "Service Call (Repairs)".toList
      ∨ f.service_type = "Service Call (Cleaning/Maintenance)".toList then
    "standard".toList
  else f.service_type

/-- Erase the wall-clock extraction timestamp from a detection result. -/
def eraseStamp (r : Option ExtractedServiceInfo) : Option ExtractedServiceInfo :=
  r.map (fun i => { i with raw_data := { i.raw_data with extracted_at := [] } })

/-- Overwrite the timestamp of a successful detection body. -/
def setStamp (now : List Char) (r : Except (List Char) ExtractedServiceInfo) :
    Except (List Char) ExtractedServiceInfo :=
  r.map (fun i => { i with raw_data := { i.raw_data with extracted_at := now } })

/-- A single long rule sentence (201 characters once stripped): the matched
rule text exceeds the 200-character description truncation. -/
def ruleS : List Char := "never ".toList ++ List.replicate 190 'x' ++ " book".toList

/-- Two copies of `ruleS` on separate lines: each is matched separately by
the first scheduling-rule pattern. -/
def ruleCtr : List Char := ruleS ++ '\n' :: ruleS

/-! ## Lemmas about `replaceAll` (Python `str.replace`) -/

theorem replaceAllF_congr (pat rep : List Char) :
    ∀ n (l : List Char) (f₁ f₂ : Nat), l.length ≤ n → l.length ≤ f₁ →
      l.length ≤ f₂ → replaceAllF f₁ l pat rep = replaceAllF f₂ l pat rep := by
  intro n
  induction n with
  | zero =>
    intro l f₁ f₂ hn _ _
    have : l = [] := List.length_eq_zero.mp (Nat.le_zero.mp hn)
    subst this
    cases f₁ <;> cases f₂ <;> rfl
  | succ n ih =>
    intro l f₁ f₂ hn h1 h2
    cases l with
    | nil => cases f₁ <;> cases f₂ <;> rfl
    | cons c cs =>
      simp only [List.length_cons] at hn h1 h2
      cases f₁ with
      | zero => omega
      | succ g₁ =>
        cases f₂ with
        | zero => omega
        | succ g₂ =>
          simp only [replaceAllF]
          by_cases hpre : pat ≠ [] ∧ pat.isPrefixOf (c :: cs)
          · simp only [if_pos hpre]
            have hd : (cs.drop (pat.length - 1)).length ≤ cs.length := by
              simp [List.length_drop]
            rw [ih _ g₁ g₂ (by omega) (by omega) (by omega)]
          · simp only [if_neg hpre]
            rw [ih cs g₁ g₂ (by omega) (by omega) (by omega)]

theorem replaceAllF_eq (l pat rep : List Char) (f : Nat) (hf : l.length ≤ f) :
    replaceAllF f l pat rep = replaceAll l pat rep :=
  replaceAllF_congr pat rep l.length l f l.length le_rfl hf le_rfl

theorem replaceAll_nil (pat rep : List Char) : replaceAll [] pat rep = [] := rfl

theorem replaceAll_cons_match {pat : List Char} (c : Char) (cs rep : List Char)
    (hne : pat ≠ []) (hpre : pat.isPrefixOf (c :: cs)) :
    replaceAll (c :: cs) pat rep
      = rep ++ replaceAll (cs.drop (pat.length - 1)) pat rep := by
  show replaceAllF (c :: cs).length (c :: cs) pat rep = _
  simp only [List.length_cons, replaceAllF, if_pos (And.intro hne hpre)]
  rw [replaceAllF_eq _ _ _ _ (by simp [List.length_drop])]

theorem replaceAll_cons_nomatch {pat : List Char} (c : Char) (cs rep : List Char)
    (h : ¬(pat ≠ [] ∧ pat.isPrefixOf (c :: cs))) :
    replaceAll (c :: cs) pat rep = c :: replaceAll cs pat rep := by
  show replaceAllF (c :: cs).length (c :: cs) pat rep = _
  simp only [List.length_cons, replaceAllF, if_neg h]
  rw [replaceAllF_eq _ _ _ _ le_rfl]

/-- Scanning passes unchanged over characters that cannot start an
occurrence: if the pattern begins with `{` and the segment `s` contains no
`{`, replacement distributes over the append. -/
theorem replaceAll_append_seg (s t rep : List Char) (p : List Char)
    (hs : '{' ∉ s) :
    replaceAll (s ++ t) ('{' :: p) rep = s ++ replaceAll t ('{' :: p) rep := by
  induction s with
  | nil => simp
  | cons c s' ih =>
    have hc : c ≠ '{' := fun h => hs (h ▸ List.mem_cons_self c s')
    have hs' : '{' ∉ s' := fun h => hs (List.mem_cons_of_mem c h)
    have hnp : ¬(('{' :: p) ≠ [] ∧ ('{' :: p).isPrefixOf (c :: (s' ++ t))) := by
      rintro ⟨-, hpre⟩
      rw [List.isPrefixOf_iff_prefix, List.cons_prefix_cons] at hpre
      exact hc hpre.1.symm
    rw [List.cons_append, replaceAll_cons_nomatch c (s' ++ t) rep hnp, ih hs']
    simp

/-- A segment without `{` is left unchanged. -/
theorem replaceAll_seg (s rep : List Char) (p : List Char) (hs : '{' ∉ s) :
    replaceAll s ('{' :: p) rep = s := by
  have := replaceAll_append_seg s [] rep p hs
  simpa [replaceAll_nil] using this

/-- Identifier extraction: if `x ++ ['}']` is a prefix of `k ++ '}' :: t` and
neither identifier contains `}`, the identifiers agree. -/
theorem placeholder_tail_inj :
    ∀ (x k t : List Char), '}' ∉ x → '}' ∉ k →
      (x ++ ['}']) <+: (k ++ '}' :: t) → x = k := by
  intro x
  induction x with
  | nil =>
    intro k t _ hk hpre
    cases k with
    | nil => rfl
    | cons b k' =>
      rw [List.nil_append, List.cons_append, List.cons_prefix_cons] at hpre
      exact absurd hpre.1.symm (fun h => hk (h ▸ List.mem_cons_self b k'))
  | cons a x' ih =>
    intro k t hx hk hpre
    cases k with
    | nil =>
      rw [List.cons_append, List.nil_append, List.cons_prefix_cons] at hpre
      exact absurd hpre.1 (fun h => hx (h ▸ List.mem_cons_self a x'))
    | cons b k' =>
      rw [List.cons_append, List.cons_append, List.cons_prefix_cons] at hpre
      have hx' : '}' ∉ x' := fun h => hx (List.mem_cons_of_mem a h)
      have hk' : '}' ∉ k' := fun h => hk (List.mem_cons_of_mem b h)
      rw [hpre.1, ih k' t hx' hk' hpre.2]

/-- Replacement consumes a placeholder whose identifier is the pattern's. -/
theorem replaceAll_at_placeholder (k t rep : List Char) :
    replaceAll (('{' :: (k ++ ['}'])) ++ t) ('{' :: (k ++ ['}'])) rep
      = rep ++ replaceAll t ('{' :: (k ++ ['}'])) rep := by
  have hpre' : ('{' :: (k ++ ['}'])).isPrefixOf ('{' :: ((k ++ ['}']) ++ t)) := by
    rw [List.isPrefixOf_iff_prefix]
    have : ('{' :: (k ++ ['}'])) ++ t = '{' :: ((k ++ ['}']) ++ t) := by simp
    rw [← this]
    exact List.prefix_append _ _
  rw [List.cons_append, replaceAll_cons_match _ _ _ (by simp) hpre']
  congr 2
  have hlen : ('{' :: (k ++ ['}'])).length - 1 = (k ++ ['}']).length := by simp
  rw [hlen, List.drop_left]

/-- Replacement steps over a placeholder with a different identifier. -/
theorem replaceAll_skip_placeholder (x k t rep : List Char) (hxk : x ≠ k)
    (hx : BraceFree x) (hk : '}' ∉ k) :
    replaceAll (('{' :: (x ++ ['}'])) ++ t) ('{' :: (k ++ ['}'])) rep
      = ('{' :: (x ++ ['}'])) ++ replaceAll t ('{' :: (k ++ ['}'])) rep := by
  have hnp : ¬(('{' :: (k ++ ['}'])) ≠ []
      ∧ ('{' :: (k ++ ['}'])).isPrefixOf ('{' :: ((x ++ ['}']) ++ t))) := by
    rintro ⟨-, hpre⟩
    rw [List.isPrefixOf_iff_prefix, List.cons_prefix_cons] at hpre
    have : (x ++ ['}']) ++ t = x ++ '}' :: t := by simp
    rw [this] at hpre
    exact hxk (placeholder_tail_inj k x t hk hx.2 hpre.2).symm
  rw [List.cons_append, replaceAll_cons_nomatch _ _ _ hnp]
  have hseg : '{' ∉ x ++ ['}'] := by
    intro h
    rcases List.mem_append.mp h with h | h
    · exact hx.1 h
    · simp at h
  rw [replaceAll_append_seg _ _ _ _ hseg]
  simp

/-! ## Lemmas about `AltShape` -/

theorem BraceFree.append {u v : List Char} (hu : BraceFree u) (hv : BraceFree v) :
    BraceFree (u ++ v) := by
  constructor
  · intro h
    rcases List.mem_append.mp h with h | h
    exacts [hu.1 h, hv.1 h]
  · intro h
    rcases List.mem_append.mp h with h | h
    exacts [hu.2 h, hv.2 h]

theorem AltShape.prepend {P : List Char → Prop} {t : List Char} (u : List Char)
    (hu : BraceFree u) (ht : AltShape P t) : AltShape P (u ++ t) :=
  match t, ht with
  | _, .seg s hs => AltShape.seg (u ++ s) (hu.append hs)
  | _, .cons s i t' hs hid hne hP ht' => by
    rw [← List.append_assoc]
    exact AltShape.cons (u ++ s) i t' (hu.append hs) hid hne hP ht'

theorem AltShape.mono {P Q : List Char → Prop} {l : List Char}
    (h : ∀ id, P id → Q id) : AltShape P l → AltShape Q l := by
  intro hl
  induction hl with
  | seg s hs => exact .seg s hs
  | cons s id t hs hid hne hP _ ih => exact .cons s id t hs hid hne (h id hP) ih

theorem AltShape.braceFree_of_empty {P : List Char → Prop} {l : List Char}
    (hP : ∀ id, ¬ P id) (h : AltShape P l) : BraceFree l :=
  match l, h with
  | _, .seg _ hs => hs
  | _, .cons _ i _ _ _ _ hPi _ => absurd hPi (hP i)

/-- Replacing the placeholder of identifier `k` in a shaped string yields a
shaped string whose identifiers additionally differ from `k`. -/
theorem AltShape.replace {P : List Char → Prop} {l : List Char}
    (h : AltShape P l) (k rep : List Char) (hk : BraceFree k)
    (hrep : BraceFree rep) :
    AltShape (fun id => P id ∧ id ≠ k)
      (replaceAll l ('{' :: (k ++ ['}'])) rep) := by
  induction h with
  | seg s hs =>
    rw [replaceAll_seg s rep _ hs.1]
    exact .seg s hs
  | cons s id t hs hid hne hP _ ih =>
    have hassoc : s ++ '{' :: (id ++ '}' :: t) = s ++ (('{' :: (id ++ ['}'])) ++ t) := by
      simp
    rw [hassoc, replaceAll_append_seg _ _ _ _ hs.1]
    by_cases hidk : id = k
    · subst hidk
      rw [replaceAll_at_placeholder]
      rw [← List.append_assoc]
      exact AltShape.prepend (s ++ rep) (hs.append hrep) ih
    · rw [replaceAll_skip_placeholder id k t rep hidk hid hk.2]
      have : s ++ (('{' :: (id ++ ['}'])) ++ replaceAll t ('{' :: (k ++ ['}'])) rep)
          = s ++ '{' :: (id ++ '}' :: replaceAll t ('{' :: (k ++ ['}'])) rep) := by
        simp
      rw [this]
      exact .cons s id _ hs hid hne ⟨hP, hidk⟩ ih

/-! ## Lemmas about `findVars`, `simpleOK` and `dedupFirst` -/

theorem dropWhile_append_of_all (p : Char → Bool) (id l : List Char)
    (h : ∀ c ∈ id, p c = true) :
    List.dropWhile p (id ++ l) = List.dropWhile p l := by
  induction id with
  | nil => rfl
  | cons c cs ih =>
    simp [List.dropWhile_cons, h c (by simp),
      ih (fun x hx => h x (by simp [hx]))]

theorem takeWhile_append_of_all (p : Char → Bool) (id l : List Char)
    (h : ∀ c ∈ id, p c = true) (c0 : Char) (h0 : p c0 = false) :
    List.takeWhile p (id ++ c0 :: l) = id := by
  induction id with
  | nil => simp [List.takeWhile_cons, h0]
  | cons c cs ih =>
    simp [List.takeWhile_cons, h c (by simp),
      ih (fun x hx => h x (by simp [hx])), h0]

theorem findVarsF_congr :
    ∀ n (l : List Char) (f₁ f₂ : Nat), l.length ≤ n → l.length ≤ f₁ →
      l.length ≤ f₂ → findVarsF f₁ l = findVarsF f₂ l := by
  intro n
  induction n with
  | zero =>
    intro l f₁ f₂ hn _ _
    have : l = [] := List.length_eq_zero.mp (Nat.le_zero.mp hn)
    subst this
    cases f₁ <;> cases f₂ <;> rfl
  | succ n ih =>
    intro l f₁ f₂ hn h1 h2
    cases l with
    | nil => cases f₁ <;> cases f₂ <;> rfl
    | cons c cs =>
      simp only [List.length_cons] at hn h1 h2
      cases f₁ with
      | zero => omega
      | succ g₁ =>
        cases f₂ with
        | zero => omega
        | succ g₂ =>
          simp only [findVarsF]
          have hrec : findVarsF g₁ cs = findVarsF g₂ cs :=
            ih cs g₁ g₂ (by omega) (by omega) (by omega)
          have hdrop : (cs.dropWhile (· ≠ '}')).length ≤ cs.length :=
            length_dropWhile_le' _ cs
          have hrec' :
              findVarsF g₁ (cs.dropWhile (· ≠ '}')).tail
                = findVarsF g₂ (cs.dropWhile (· ≠ '}')).tail := by
            have := List.length_tail (cs.dropWhile (· ≠ '}'))
            exact ih _ g₁ g₂ (by omega) (by omega) (by omega)
          rw [hrec, hrec']

theorem findVarsF_eq (l : List Char) (f : Nat) (hf : l.length ≤ f) :
    findVarsF f l = findVars l :=
  findVarsF_congr l.length l f l.length le_rfl hf le_rfl

theorem findVars_nil : findVars [] = [] := rfl

theorem findVars_cons (c : Char) (cs : List Char) :
    findVars (c :: cs)
      = if c = '{' then
          if cs.takeWhile (· ≠ '}') ≠ [] ∧ cs.dropWhile (· ≠ '}') ≠ [] then
            cs.takeWhile (· ≠ '}') :: findVars (cs.dropWhile (· ≠ '}')).tail
          else findVars cs
        else findVars cs := by
  show findVarsF (c :: cs).length (c :: cs) = _
  simp only [List.length_cons, findVarsF]
  have hdrop : (cs.dropWhile (· ≠ '}')).length ≤ cs.length :=
    length_dropWhile_le' _ cs
  have h1 := findVarsF_eq cs cs.length le_rfl
  have h2 : findVarsF cs.length (cs.dropWhile (· ≠ '}')).tail
      = findVars (cs.dropWhile (· ≠ '}')).tail := by
    have := List.length_tail (cs.dropWhile (· ≠ '}'))
    exact findVarsF_eq _ _ (by omega)
  rw [h1, h2]

theorem findVars_skip (c : Char) (cs : List Char) (hc : c ≠ '{') :
    findVars (c :: cs) = findVars cs := by
  rw [findVars_cons, if_neg hc]

theorem findVars_seg (s t : List Char) (hs : '{' ∉ s) :
    findVars (s ++ t) = findVars t := by
  induction s with
  | nil => rfl
  | cons c s' ih =>
    have hc : c ≠ '{' := fun h => hs (h ▸ List.mem_cons_self c s')
    rw [List.cons_append, findVars_skip c _ hc,
      ih (fun h => hs (List.mem_cons_of_mem c h))]

theorem findVars_no_open (l : List Char) (hl : '{' ∉ l) : findVars l = [] := by
  have := findVars_seg l [] hl
  simpa [findVars_nil] using this

theorem findVars_at_placeholder (id t : List Char) (hid : BraceFree id)
    (hne : id ≠ []) :
    findVars ('{' :: (id ++ '}' :: t)) = id :: findVars t := by
  rw [findVars_cons, if_pos rfl]
  have hall : ∀ c ∈ id, (c ≠ '}' : Bool) = true := by
    intro c hc
    have : c ≠ '}' := fun h => hid.2 (h ▸ hc)
    simp [this]
  have htake : (id ++ '}' :: t).takeWhile (· ≠ '}') = id :=
    takeWhile_append_of_all _ id t hall '}' (by simp)
  have hdrop : (id ++ '}' :: t).dropWhile (· ≠ '}') = '}' :: t := by
    rw [dropWhile_append_of_all _ id _ hall]
    simp [List.dropWhile_cons]
  rw [htake, hdrop]
  simp [hne]

theorem dedupFirstF_congr :
    ∀ n (l : List (List Char)) (f₁ f₂ : Nat), l.length ≤ n → l.length ≤ f₁ →
      l.length ≤ f₂ → dedupFirstF f₁ l = dedupFirstF f₂ l := by
  intro n
  induction n with
  | zero =>
    intro l f₁ f₂ hn _ _
    have : l = [] := List.length_eq_zero.mp (Nat.le_zero.mp hn)
    subst this
    cases f₁ <;> cases f₂ <;> rfl
  | succ n ih =>
    intro l f₁ f₂ hn h1 h2
    cases l with
    | nil => cases f₁ <;> cases f₂ <;> rfl
    | cons x xs =>
      simp only [List.length_cons] at hn h1 h2
      cases f₁ with
      | zero => omega
      | succ g₁ =>
        cases f₂ with
        | zero => omega
        | succ g₂ =>
          simp only [dedupFirstF]
          have hf := List.length_filter_le (· ≠ x) xs
          rw [ih (xs.filter (· ≠ x)) g₁ g₂ (by omega) (by omega) (by omega)]

theorem dedupFirst_cons (x : List Char) (xs : List (List Char)) :
    dedupFirst (x :: xs) = x :: dedupFirst (xs.filter (· ≠ x)) := by
  show dedupFirstF (x :: xs).length (x :: xs) = _
  simp only [List.length_cons, dedupFirstF]
  have hf := List.length_filter_le (· ≠ x) xs
  rw [dedupFirstF_congr (xs.filter (· ≠ x)).length _ xs.length _ le_rfl (by omega)
    le_rfl]
  rfl

theorem mem_dedupFirst :
    ∀ n (l : List (List Char)), l.length ≤ n →
      ∀ a, a ∈ dedupFirst l ↔ a ∈ l := by
  intro n
  induction n with
  | zero =>
    intro l hn a
    have : l = [] := List.length_eq_zero.mp (Nat.le_zero.mp hn)
    subst this
    rfl
  | succ n ih =>
    intro l hn a
    cases l with
    | nil => rfl
    | cons x xs =>
      simp only [List.length_cons] at hn
      rw [dedupFirst_cons]
      have hf := List.length_filter_le (· ≠ x) xs
      constructor
      · intro h
        rcases List.mem_cons.mp h with h | h
        · exact h ▸ List.mem_cons_self x xs
        · have := (ih (xs.filter (· ≠ x)) (by omega) a).mp h
          exact List.mem_cons_of_mem x (List.mem_filter.mp this).1
      · intro h
        rcases List.mem_cons.mp h with h | h
        · exact h ▸ List.mem_cons_self x _
        · by_cases hax : a = x
          · exact hax ▸ List.mem_cons_self x _
          · refine List.mem_cons_of_mem x ?_
            refine (ih (xs.filter (· ≠ x)) (by omega) a).mpr ?_
            exact List.mem_filter.mpr ⟨h, by simp [hax]⟩

theorem nodup_dedupFirst :
    ∀ n (l : List (List Char)), l.length ≤ n → (dedupFirst l).Nodup := by
  intro n
  induction n with
  | zero =>
    intro l hn
    have : l = [] := List.length_eq_zero.mp (Nat.le_zero.mp hn)
    subst this
    exact List.nodup_nil
  | succ n ih =>
    intro l hn
    cases l with
    | nil => exact List.nodup_nil
    | cons x xs =>
      simp only [List.length_cons] at hn
      rw [dedupFirst_cons]
      have hf := List.length_filter_le (· ≠ x) xs
      refine List.Nodup.cons ?_ (ih _ (by omega))
      intro hmem
      have := (mem_dedupFirst (xs.filter (· ≠ x)).length _ le_rfl x).mp hmem
      have := (List.mem_filter.mp this).2
      simp at this

theorem mem_detectVariables (template : List Char) (id : List Char) :
    id ∈ detectVariables template
      ↔ id ∈ findVars template ∧ id ≠ reservedVar := by
  unfold detectVariables
  rw [mem_dedupFirst _ _ le_rfl]
  rw [List.mem_filter]
  simp

theorem nodup_detectVariables (template : List Char) :
    (detectVariables template).Nodup :=
  nodup_dedupFirst _ _ le_rfl

/-! ### Soundness of `simpleOK` -/

theorem simpleOKF_congr :
    ∀ n (l : List Char) (f₁ f₂ : Nat), l.length ≤ n → l.length ≤ f₁ →
      l.length ≤ f₂ → simpleOKF f₁ l = simpleOKF f₂ l := by
  intro n
  induction n with
  | zero =>
    intro l f₁ f₂ hn _ _
    have : l = [] := List.length_eq_zero.mp (Nat.le_zero.mp hn)
    subst this
    cases f₁ <;> cases f₂ <;> rfl
  | succ n ih =>
    intro l f₁ f₂ hn h1 h2
    cases l with
    | nil => cases f₁ <;> cases f₂ <;> rfl
    | cons c cs =>
      simp only [List.length_cons] at hn h1 h2
      cases f₁ with
      | zero => omega
      | succ g₁ =>
        cases f₂ with
        | zero => omega
        | succ g₂ =>
          simp only [simpleOKF]
          have hdrop : (cs.dropWhile (fun d => d ≠ '}' && d ≠ '{')).length
              ≤ cs.length := length_dropWhile_le' _ cs
          have h1' : simpleOKF g₁ (cs.dropWhile (fun d => d ≠ '}' && d ≠ '{')).tail
              = simpleOKF g₂ (cs.dropWhile (fun d => d ≠ '}' && d ≠ '{')).tail := by
            have := List.length_tail (cs.dropWhile (fun d => d ≠ '}' && d ≠ '{'))
            exact ih _ g₁ g₂ (by omega) (by omega) (by omega)
          have h2' : simpleOKF g₁ cs = simpleOKF g₂ cs :=
            ih cs g₁ g₂ (by omega) (by omega) (by omega)
          rw [h1', h2']

theorem simpleOK_cons (c : Char) (cs : List Char) :
    simpleOK (c :: cs)
      = if c = '{' then
          if cs.takeWhile (fun d => d ≠ '}' && d ≠ '{') ≠ []
              ∧ (cs.dropWhile (fun d => d ≠ '}' && d ≠ '{')).headD ' ' = '}' then
            simpleOK (cs.dropWhile (fun d => d ≠ '}' && d ≠ '{')).tail
          else false
        else if c = '}' then false
        else simpleOK cs := by
  show simpleOKF (c :: cs).length (c :: cs) = _
  simp only [List.length_cons, simpleOKF]
  have hdrop : (cs.dropWhile (fun d => d ≠ '}' && d ≠ '{')).length ≤ cs.length :=
    length_dropWhile_le' _ cs
  have h1 : simpleOKF cs.length (cs.dropWhile (fun d => d ≠ '}' && d ≠ '{')).tail
      = simpleOK (cs.dropWhile (fun d => d ≠ '}' && d ≠ '{')).tail := by
    have := List.length_tail (cs.dropWhile (fun d => d ≠ '}' && d ≠ '{'))
    exact simpleOKF_congr _ _ _ _ le_rfl (by omega) (by omega)
  have h2 : simpleOKF cs.length cs = simpleOK cs :=
    simpleOKF_congr cs.length cs cs.length cs.length le_rfl le_rfl le_rfl
  rw [h1, h2]

/-- Every template accepted by `simpleOK` is an alternation of brace-free
segments and `{id}` placeholders whose identifiers are exactly the ones
`findVars` discovers. -/
theorem simpleOK_shape :
    ∀ n (l : List Char), l.length ≤ n → simpleOK l = true →
      AltShape (fun id => id ∈ findVars l) l := by
  intro n
  induction n with
  | zero =>
    intro l hn _
    have : l = [] := List.length_eq_zero.mp (Nat.le_zero.mp hn)
    subst this
    exact .seg [] (by constructor <;> simp)
  | succ n ih =>
    intro l hn hok
    cases l with
    | nil => exact .seg [] (by constructor <;> simp)
    | cons c cs =>
      simp only [List.length_cons] at hn
      rw [simpleOK_cons] at hok
      by_cases hc : c = '{'
      · subst hc
        rw [if_pos rfl] at hok
        set p : Char → Bool := fun d => d ≠ '}' && d ≠ '{' with hp
        by_cases hcond : cs.takeWhile p ≠ [] ∧ (cs.dropWhile p).headD ' ' = '}'
        · rw [if_pos hcond] at hok
          obtain ⟨hne, hhead⟩ := hcond
          set id := cs.takeWhile p with hidDef
          set rest := cs.dropWhile p with hrestDef
          have hcs : cs = id ++ rest := (List.takeWhile_append_dropWhile p cs).symm
          have hrest : rest = '}' :: rest.tail := by
            cases hr : rest with
            | nil => rw [hr] at hhead; simp at hhead
            | cons d ds =>
              rw [hr] at hhead
              simp at hhead
              rw [hhead]
              simp
          have hbfid : BraceFree id := by
            constructor
            · intro hmem
              have := List.mem_takeWhile_imp (hidDef ▸ hmem)
              simp [hp] at this
            · intro hmem
              have := List.mem_takeWhile_imp (hidDef ▸ hmem)
              simp [hp] at this
          have hshape : '{' :: cs = '{' :: (id ++ '}' :: rest.tail) := by
            rw [hcs, ← hrest]
          have hfv : findVars ('{' :: cs) = id :: findVars rest.tail := by
            rw [hshape]
            exact findVars_at_placeholder id rest.tail hbfid hne
          have htail : AltShape (fun i => i ∈ findVars rest.tail) rest.tail := by
            have hlen : rest.tail.length ≤ n := by
              have h1 := length_dropWhile_le' p cs
              have h2 := List.length_tail rest
              rw [← hrestDef] at h1
              omega
            exact ih rest.tail hlen hok
          have hcons : AltShape (fun i => i ∈ findVars ('{' :: cs))
              ('{' :: (id ++ '}' :: rest.tail)) := by
            refine AltShape.cons [] id rest.tail (by constructor <;> simp) hbfid
              hne ?_ ?_
            · rw [hfv]; exact List.mem_cons_self _ _
            · refine htail.mono (fun i hi => ?_)
              rw [hfv]
              exact List.mem_cons_of_mem _ hi
          rw [hshape] at hcons
          rw [hshape]
          exact hcons
        · rw [if_neg hcond] at hok
          exact absurd hok (by simp)
      · rw [if_neg hc] at hok
        by_cases hc' : c = '}'
        · rw [if_pos hc'] at hok
          exact absurd hok (by simp)
        · rw [if_neg hc'] at hok
          have htail : AltShape (fun i => i ∈ findVars cs) cs :=
            ih cs (by omega) hok
          have hfv : findVars (c :: cs) = findVars cs := findVars_skip c cs hc
          have hbfc : BraceFree [c] := by
            constructor
            · intro h; exact hc (List.mem_singleton.mp h).symm
            · intro h; exact hc' (List.mem_singleton.mp h).symm
          have hmono : AltShape (fun i => i ∈ findVars (c :: cs)) cs :=
            htail.mono (fun i hi => by rw [hfv]; exact hi)
          have := AltShape.prepend [c] hbfc hmono
          simpa using this

/-- The constructor side conditions can be reflected into the predicate. -/
theorem AltShape.strengthen {P : List Char → Prop} {l : List Char}
    (h : AltShape P l) :
    AltShape (fun id => P id ∧ BraceFree id ∧ id ≠ []) l := by
  induction h with
  | seg s hs => exact .seg s hs
  | cons s i t hs hid hne hP _ ih => exact .cons s i t hs hid hne ⟨hP, hid, hne⟩ ih

/-- Identifiers discovered on a shaped string are brace-free and non-empty. -/
theorem shape_findVars_ids {P : List Char → Prop} {l : List Char}
    (h : AltShape P l) :
    ∀ id ∈ findVars l, BraceFree id ∧ id ≠ [] := by
  induction h with
  | seg s hs =>
    rw [findVars_no_open s hs.1]
    intro id hmem
    exact absurd hmem (List.not_mem_nil id)
  | cons s i t hs hid hne _ _ ih =>
    rw [findVars_seg s _ hs.1, findVars_at_placeholder i t hid hne]
    intro id hmem
    rcases List.mem_cons.mp hmem with h | h
    · exact h ▸ ⟨hid, hne⟩
    · exact ih id h

/-- Folding the per-variable replacements of `inject_variables` over a shaped
string whose every placeholder identifier is among the keys, with brace-free
keys and values, produces a brace-free string. -/
theorem foldl_replace_braceFree :
    ∀ (vals : List (List Char × List Char)) (l : List Char),
      AltShape (fun id => id ∈ vals.map Prod.fst) l →
      (∀ kv ∈ vals, BraceFree kv.1 ∧ BraceFree kv.2) →
      BraceFree
        (vals.foldl (fun acc kv => replaceAll acc (placeholder kv.1) kv.2) l) := by
  intro vals
  induction vals with
  | nil =>
    intro l hshape _
    exact hshape.braceFree_of_empty (by simp)
  | cons kv rest ih =>
    intro l hshape hbf
    have hbfk := (hbf kv (List.mem_cons_self kv rest)).1
    have hbfv := (hbf kv (List.mem_cons_self kv rest)).2
    have hstep := (hshape.replace kv.1 kv.2 hbfk hbfv).mono
      (Q := fun id => id ∈ rest.map Prod.fst)
      (fun id hid => by
        rcases List.mem_map.mp hid.1 with ⟨p, hp, hpe⟩
        rcases List.mem_cons.mp hp with h | h
        · exact absurd (hpe ▸ congrArg Prod.fst h) hid.2
        · exact List.mem_map.mpr ⟨p, h, hpe⟩)
    simp only [List.foldl_cons]
    have : replaceAll l ('{' :: (kv.1 ++ ['}'])) kv.2
        = replaceAll l (placeholder kv.1) kv.2 := rfl
    rw [this] at hstep
    exact ih _ hstep (fun kv' h => hbf kv' (List.mem_cons_of_mem kv h))

/-! ## Occurrence preservation under `replaceAll` (for C2) -/

/-- In `u ++ '}' :: t` with `u` free of `{`, any `{` lies strictly inside
`t`. -/
theorem first_open_after (u : List Char) (hu : '{' ∉ u) :
    ∀ t b w, u ++ '}' :: t = b ++ '{' :: w →
      ∃ b', b = u ++ '}' :: b' ∧ t = b' ++ '{' :: w := by
  induction u with
  | nil =>
    intro t b w h
    cases b with
    | nil =>
      rw [List.nil_append, List.nil_append] at h
      exact absurd (List.head_eq_of_cons_eq h) (by decide)
    | cons d b' =>
      rw [List.nil_append, List.cons_append] at h
      have hd := List.head_eq_of_cons_eq h
      have ht := List.tail_eq_of_cons_eq h
      exact ⟨b', by rw [List.nil_append, ← hd], ht⟩
  | cons c u' ih =>
    intro t b w h
    cases b with
    | nil =>
      rw [List.cons_append, List.nil_append] at h
      have := List.head_eq_of_cons_eq h
      exact absurd this (fun hh => hu (hh ▸ List.mem_cons_self c u'))
    | cons d b'' =>
      rw [List.cons_append, List.cons_append] at h
      have hd := List.head_eq_of_cons_eq h
      have ht := List.tail_eq_of_cons_eq h
      obtain ⟨b', hb, htt⟩ := ih (fun hh => hu (List.mem_cons_of_mem c hh)) t b'' w ht
      exact ⟨b', by rw [hb, ← hd, List.cons_append], htt⟩

/-- An occurrence of the placeholder of `x` inside the placeholder of a
different brace-free identifier `k` followed by `t` lies entirely inside
`t`. -/
theorem occurrence_past_placeholder (k x t a b : List Char)
    (hk : BraceFree k) (hx : BraceFree x) (hkx : x ≠ k)
    (h : ('{' :: (k ++ ['}'])) ++ t = a ++ (('{' :: (x ++ ['}'])) ++ b)) :
    ∃ a', a = ('{' :: (k ++ ['}'])) ++ a'
      ∧ t = a' ++ (('{' :: (x ++ ['}'])) ++ b) := by
  cases a with
  | nil =>
    rw [List.nil_append, List.cons_append, List.cons_append] at h
    have htails := List.tail_eq_of_cons_eq h
    have hpre : (x ++ ['}']) <+: (k ++ '}' :: t) := ⟨b, by simpa using htails.symm⟩
    exact absurd (placeholder_tail_inj x k t hx.2 hk.2 hpre) hkx
  | cons c a' =>
    rw [List.cons_append, List.cons_append] at h
    have hd := List.head_eq_of_cons_eq h
    have ht := List.tail_eq_of_cons_eq h
    have ht' : k ++ '}' :: t = a' ++ '{' :: ((x ++ ['}']) ++ b) := by
      simpa using ht
    obtain ⟨b', hb, htt⟩ := first_open_after k hk.1 t a' ((x ++ ['}']) ++ b) ht'
    refine ⟨b', ?_, ?_⟩
    · rw [hb, ← hd]
      simp
    · rw [htt]
      simp

/-- Replacing occurrences of `{k}` by `v` cannot destroy an occurrence of
`{x}` when `x ≠ k` and both identifiers are brace-free. -/
theorem replaceAll_infix_preserved (x k : List Char) (hx : BraceFree x)
    (hk : BraceFree k) (hkx : x ≠ k) (v : List Char) :
    ∀ n (s : List Char), s.length ≤ n →
      ('{' :: (x ++ ['}'])) <:+: s →
      ('{' :: (x ++ ['}'])) <:+: replaceAll s ('{' :: (k ++ ['}'])) v := by
  intro n
  induction n with
  | zero =>
    intro s hn hocc
    have : s = [] := List.length_eq_zero.mp (Nat.le_zero.mp hn)
    subst this
    exact absurd (List.infix_nil.mp hocc) (by simp)
  | succ n ih =>
    intro s hn hocc
    cases s with
    | nil => exact absurd (List.infix_nil.mp hocc) (by simp)
    | cons c cs =>
      simp only [List.length_cons] at hn
      by_cases hpre : ('{' :: (k ++ ['}'])).isPrefixOf (c :: cs)
      · obtain ⟨t, hts⟩ := List.isPrefixOf_iff_prefix.mp hpre
        rw [replaceAll_cons_match _ _ _ (by simp) hpre]
        have hdrop : cs.drop (('{' :: (k ++ ['}'])).length - 1) = t := by
          have : ('{' :: (k ++ ['}'])).length - 1 = (k ++ ['}']).length := by simp
          rw [this]
          have hcs : cs = (k ++ ['}']) ++ t := by
            have := List.tail_eq_of_cons_eq hts
            rw [← this]
            simp
          rw [hcs, List.drop_left]
        rw [hdrop]
        obtain ⟨a, b, hab⟩ := hocc
        have hsplit : ('{' :: (k ++ ['}'])) ++ t
            = a ++ (('{' :: (x ++ ['}'])) ++ b) := by
          rw [hts, ← hab]
          simp
        obtain ⟨a', -, hta⟩ :=
          occurrence_past_placeholder k x t a b hk hx hkx hsplit
        have hlen : t.length ≤ n := by
          have := congrArg List.length hts
          simp at this
          omega
        have := ih t hlen ⟨a', b, by simp [hta]⟩
        exact this.trans (List.suffix_append v _).isInfix
      · rw [replaceAll_cons_nomatch _ _ _ (fun hcl => hpre hcl.2)]
        obtain ⟨a, b, hab⟩ := hocc
        cases a with
        | nil =>
          rw [List.nil_append] at hab
          have hc : c = '{' := (List.head_eq_of_cons_eq hab.symm)
          have hcs : cs = (x ++ ['}']) ++ b := by
            have := List.tail_eq_of_cons_eq hab.symm
            rw [this]
            simp
          have hseg : '{' ∉ x ++ ['}'] := by
            intro hmem
            rcases List.mem_append.mp hmem with hmem | hmem
            · exact hx.1 hmem
            · simp at hmem
          rw [hcs, replaceAll_append_seg _ _ _ _ hseg]
          refine ⟨[], replaceAll b ('{' :: (k ++ ['}'])) v, ?_⟩
          rw [hc]
          simp
        | cons d a' =>
          have hocc' : ('{' :: (x ++ ['}'])) <:+: cs := by
            refine ⟨a', b, ?_⟩
            have := List.tail_eq_of_cons_eq hab
            rw [← this]
            rfl
          exact List.infix_cons (ih cs (by omega) hocc')

/-- Replacing an occurring pattern inserts the replacement text. -/
theorem replaceAll_infix_insert (k v : List Char) :
    ∀ n (s : List Char), s.length ≤ n →
      ('{' :: (k ++ ['}'])) <:+: s →
      v <:+: replaceAll s ('{' :: (k ++ ['}'])) v := by
  intro n
  induction n with
  | zero =>
    intro s hn hocc
    have : s = [] := List.length_eq_zero.mp (Nat.le_zero.mp hn)
    subst this
    exact absurd (List.infix_nil.mp hocc) (by simp)
  | succ n ih =>
    intro s hn hocc
    cases s with
    | nil => exact absurd (List.infix_nil.mp hocc) (by simp)
    | cons c cs =>
      simp only [List.length_cons] at hn
      by_cases hpre : ('{' :: (k ++ ['}'])).isPrefixOf (c :: cs)
      · rw [replaceAll_cons_match _ _ _ (by simp) hpre]
        exact (List.prefix_append v _).isInfix
      · rw [replaceAll_cons_nomatch _ _ _ (fun hcl => hpre hcl.2)]
        obtain ⟨a, b, hab⟩ := hocc
        cases a with
        | nil =>
          rw [List.nil_append] at hab
          have : ('{' :: (k ++ ['}'])).isPrefixOf (c :: cs) :=
            List.isPrefixOf_iff_prefix.mpr ⟨b, hab⟩
          exact absurd this hpre
        | cons d a' =>
          have hocc' : ('{' :: (k ++ ['}'])) <:+: cs := by
            refine ⟨a', b, ?_⟩
            have := List.tail_eq_of_cons_eq hab
            rw [← this]
            rfl
          exact List.infix_cons (ih cs (by omega) hocc')

/-! ## Structural lemmas about `detect` -/

/-- Source `_has_detected_info` holds exactly when one of the eight designated
fields is non-empty. -/
theorem hasDetectedInfo_iff (i : ExtractedServiceInfo) :
    hasDetectedInfo i = true
      ↔ (i.company_info.company_name ≠ [] ∨ i.dispatch_fees ≠ []
        ∨ i.scheduling.operating_days ≠ [] ∨ i.membership.program_name ≠ []
        ∨ i.metrics.company_experience ≠ [] ∨ i.payment.accepted_methods ≠ []
        ∨ i.service_categories ≠ [] ∨ i.scheduling_rules ≠ []) := by
  unfold hasDetectedInfo
  simp only [Bool.or_eq_true, Bool.not_eq_true', List.isEmpty_eq_false,
    List.isEmpty_iff, ne_eq]
  tauto

/-- The detection body depends on the wall-clock timestamp only through the
`extracted_at` metadata field. -/
theorem detectBodyAt_stamp (now content : List Char) :
    detectBodyAt now content = setStamp now (detectBodyAt [] content) := by
  unfold detectBodyAt setStamp
  cases detectMembership content <;> cases detectMetrics content <;> rfl

/-- Projections of a successful detection body onto the per-group
detectors. -/
theorem detectBodyAt_fields (now content : List Char) (i : ExtractedServiceInfo)
    (h : detectBodyAt now content = .ok i) :
    i.scheduling = detectScheduling content
      ∧ i.scheduling_rules = detectSchedulingRules content
      ∧ i.dispatch_fees = detectDispatchFees content := by
  unfold detectBodyAt at h
  cases hm : detectMembership content with
  | error e => rw [hm] at h; exact absurd h (by simp [Bind.bind, Except.bind])
  | ok mb =>
    cases hmet : detectMetrics content with
    | error e =>
      rw [hm, hmet] at h
      exact absurd h (by simp [Bind.bind, Except.bind])
    | ok ms =>
      rw [hm, hmet] at h
      simp only [Bind.bind, Except.bind, pure, Except.pure, Except.ok.injEq] at h
      rw [← h]
      exact ⟨rfl, rfl, rfl⟩

/-- Source `parse_hour` agrees with the specification's description of 12-hour
normalization. -/
theorem parseHour_eq_spec (t : List Char) : parseHour t = parseHourSpec t := by
  cases t with
  | nil => rfl
  | cons c1 rest =>
    by_cases h1 : isDig c1
    · cases rest with
      | nil =>
        simp only [parseHour, parseHourSpec, List.takeWhile_cons, h1, if_pos,
          List.takeWhile_nil]
        simp [natOfDigits, h1]
      | cons c2 rest' =>
        by_cases h2 : isDig c2
        · simp only [parseHour, parseHourSpec, List.takeWhile_cons, h1, h2]
          simp [natOfDigits, h1, h2, List.take]
        · simp only [parseHour, parseHourSpec, List.takeWhile_cons, h1, h2]
          simp [natOfDigits, h1, h2]
    · simp only [parseHour, parseHourSpec, List.takeWhile_cons, h1]
      simp [h1]

/-! ## Invariants of the scheduling-rule and dispatch-fee folds -/

/-- The priority-vs-keyword and distinct-description invariant of the rule
list, preserved by `addRule` when the incoming matched text is at most 200
characters long. -/
theorem addRule_inv (acc : List SchedulingRule) (ty tx : List Char)
    (hlen : tx.length ≤ 200)
    (hnodup : (acc.map (fun r => r.description)).Nodup)
    (hprio : ∀ r ∈ acc, (r.priority = "critical".toList
      ↔ priorityWords.any (fun w => containsSub (uppStr r.description) w) = true)) :
    ((addRule acc ty tx).map (fun r => r.description)).Nodup
      ∧ ∀ r ∈ addRule acc ty tx, (r.priority = "critical".toList
        ↔ priorityWords.any (fun w => containsSub (uppStr r.description) w) = true) := by
  unfold addRule
  by_cases hdup : (acc.any (fun r => r.description = tx)) = true
  · rw [if_pos hdup]
    exact ⟨hnodup, hprio⟩
  · rw [if_neg hdup]
    have htake : tx.take 200 = tx := List.take_of_length_le hlen
    constructor
    · rw [List.map_append]
      rw [List.nodup_append]
      refine ⟨hnodup, by simp [htake], ?_⟩
      intro d hd
      simp only [List.map_cons, List.map_nil, htake]
      intro hdd
      rcases List.mem_map.mp hd with ⟨r, hr, hrd⟩
      have : r.description = tx := by
        have := List.mem_singleton.mp hdd
        rw [← hrd] at this
        exact this
      exact hdup (List.any_eq_true.mpr ⟨r, hr, by simp [this]⟩)
    · intro r hr
      rcases List.mem_append.mp hr with h | h
      · exact hprio r h
      · have hre := List.mem_singleton.mp h
        subst hre
        simp only [htake]
        by_cases hkw : priorityWords.any (fun w => containsSub (uppStr tx) w) = true
        · simp [hkw]
        · simp only [Bool.not_eq_true] at hkw
          simp [hkw]

theorem foldl_addRule_inv (ts : List (List Char × List Char)) :
    ∀ acc, (∀ p ∈ ts, p.2.length ≤ 200) →
      (acc.map (fun r => r.description)).Nodup →
      (∀ r ∈ acc, (r.priority = "critical".toList
        ↔ priorityWords.any (fun w => containsSub (uppStr r.description) w) = true)) →
      (((ts.foldl (fun rs t => addRule rs t.1 t.2) acc).map
          (fun r => r.description)).Nodup
        ∧ ∀ r ∈ ts.foldl (fun rs t => addRule rs t.1 t.2) acc,
          (r.priority = "critical".toList
            ↔ priorityWords.any (fun w => containsSub (uppStr r.description) w)
              = true)) := by
  induction ts with
  | nil => intro acc _ h1 h2; exact ⟨h1, h2⟩
  | cons p rest ih =>
    intro acc hlen h1 h2
    simp only [List.foldl_cons]
    have hstep := addRule_inv acc p.1 p.2 (hlen p (List.mem_cons_self p rest)) h1 h2
    exact ih _ (fun q hq => hlen q (List.mem_cons_of_mem p hq)) hstep.1 hstep.2

/-- The standard-fee step: per-fee invariant (context-classified service
type, key recorded) plus pairwise-distinct amounts. -/
theorem stdFeeStep_inv (content : List Char)
    (acc : List DispatchFee × List (List Char)) (m : MRes)
    (hball : ∀ f ∈ acc.1,
      (f.service_type = "Standard Service Call".toList
        ∨ f.service_type = "Service Call (Repairs)".toList
        ∨ f.service_type = "Service Call (Cleaning/Maintenance)".toList)
      ∧ ("standard_".toList ++ f.amount) ∈ acc.2)
    (hpw : acc.1.Pairwise (fun a b => a.amount ≠ b.amount)) :
    (∀ f ∈ (stdFeeStep content acc m).1,
      (f.service_type = "Standard Service Call".toList
        ∨ f.service_type = "Service Call (Repairs)".toList
        ∨ f.service_type = "Service Call (Cleaning/Maintenance)".toList)
      ∧ ("standard_".toList ++ f.amount) ∈ (stdFeeStep content acc m).2)
    ∧ (stdFeeStep content acc m).1.Pairwise (fun a b => a.amount ≠ b.amount) := by
  unfold stdFeeStep
  by_cases hkey : (acc.2.contains ("standard_".toList
      ++ ('$' :: (groupTxt content m 1).getD []))) = true
  · rw [if_pos hkey]
    exact ⟨hball, hpw⟩
  · rw [if_neg hkey]
    constructor
    · intro f hf
      rcases List.mem_append.mp hf with h | h
      · refine ⟨(hball f h).1, List.mem_cons_of_mem _ (hball f h).2⟩
      · have := List.mem_singleton.mp h
        subst this
        constructor
        · dsimp only
          split
          · exact Or.inr (Or.inl rfl)
          · split
            · exact Or.inr (Or.inr rfl)
            · exact Or.inl rfl
        · exact List.mem_cons_self _ _
    · rw [List.pairwise_append]
      refine ⟨hpw, List.pairwise_singleton _ _, ?_⟩
      intro a ha b hb
      have hbe := List.mem_singleton.mp hb
      subst hbe
      intro heq
      have hkeya := (hball a ha).2
      rw [heq] at hkeya
      exact hkey (by simpa using hkeya)

theorem foldl_stdFeeStep_inv (content : List Char) (ms : List MRes) :
    ∀ acc,
      (∀ f ∈ acc.1,
        (f.service_type = "Standard Service Call".toList
          ∨ f.service_type = "Service Call (Repairs)".toList
          ∨ f.service_type = "Service Call (Cleaning/Maintenance)".toList)
        ∧ ("standard_".toList ++ f.amount) ∈ acc.2) →
      acc.1.Pairwise (fun a b => a.amount ≠ b.amount) →
      (∀ f ∈ (ms.foldl (stdFeeStep content) acc).1,
        (f.service_type = "Standard Service Call".toList
          ∨ f.service_type = "Service Call (Repairs)".toList
          ∨ f.service_type = "Service Call (Cleaning/Maintenance)".toList)
        ∧ ("standard_".toList ++ f.amount) ∈ (ms.foldl (stdFeeStep content) acc).2)
      ∧ (ms.foldl (stdFeeStep content) acc).1.Pairwise
          (fun a b => a.amount ≠ b.amount) := by
  induction ms with
  | nil => intro acc h1 h2; exact ⟨h1, h2⟩
  | cons m rest ih =>
    intro acc h1 h2
    simp only [List.foldl_cons]
    have hstep := stdFeeStep_inv content acc m h1 h2
    exact ih _ hstep.1 hstep.2

theorem foldl_patterns_inv (content : List Char) (pats : List Pat) :
    ∀ acc,
      (∀ f ∈ acc.1,
        (f.service_type = "Standard Service Call".toList
          ∨ f.service_type = "Service Call (Repairs)".toList
          ∨ f.service_type = "Service Call (Cleaning/Maintenance)".toList)
        ∧ ("standard_".toList ++ f.amount) ∈ acc.2) →
      acc.1.Pairwise (fun a b => a.amount ≠ b.amount) →
      (∀ f ∈ (pats.foldl
          (fun acc pat => (reFinditer content pat.1).foldl (stdFeeStep content) acc)
          acc).1,
        (f.service_type = "Standard Service Call".toList
          ∨ f.service_type = "Service Call (Repairs)".toList
          ∨ f.service_type = "Service Call (Cleaning/Maintenance)".toList)
        ∧ ("standard_".toList ++ f.amount) ∈ (pats.foldl
          (fun acc pat => (reFinditer content pat.1).foldl (stdFeeStep content) acc)
          acc).2)
      ∧ (pats.foldl
          (fun acc pat => (reFinditer content pat.1).foldl (stdFeeStep content) acc)
          acc).1.Pairwise (fun a b => a.amount ≠ b.amount) := by
  induction pats with
  | nil => intro acc h1 h2; exact ⟨h1, h2⟩
  | cons p rest ih =>
    intro acc h1 h2
    simp only [List.foldl_cons]
    have hstep := foldl_stdFeeStep_inv content (reFinditer content p.1) acc h1 h2
    exact ih _ hstep.1 hstep.2

/-! ## The claims -/

/-- C2 (corrected): `inject_variables` substitutes literally and
sequentially — the reserved placeholder first, then each `{name}` in mapping
order over the current result — so an inserted value IS subject to later
substitutions; the claim's verbatim-insertion guarantee holds only for
`{other_var}` text whose `other_var` is not a later-substituted variable:
if the mapping is `pre ++ (k, v) :: post`, the value `v` contains the
placeholder of `x`, no key of `post` equals `x` (keys brace-free), and the
placeholder of `k` is still present after the reserved and `pre`
substitutions, then the `{x}` text survives into the final output. -/
theorem claim2_no_secondary_expansion (template prompt v x k : List Char)
    (pre post : List (List Char × List Char))
    (hx : BraceFree x)
    (hpost : ∀ kv ∈ post, BraceFree kv.1 ∧ kv.1 ≠ x)
    (hv : placeholder x <:+: v)
    (hk : placeholder k <:+: injectVariables template pre prompt) :
    placeholder x <:+: injectVariables template (pre ++ (k, v) :: post) prompt := by
  have hpres : ∀ (ps : List (List Char × List Char)) (acc : List Char),
      (∀ kv ∈ ps, BraceFree kv.1 ∧ kv.1 ≠ x) →
      placeholder x <:+: acc →
      placeholder x <:+:
        ps.foldl (fun acc kv => replaceAll acc (placeholder kv.1) kv.2) acc := by
    intro ps
    induction ps with
    | nil => intro acc _ h; exact h
    | cons kv rest ih =>
      intro acc hps hacc
      simp only [List.foldl_cons]
      refine ih _ (fun q hq => hps q (List.mem_cons_of_mem kv hq)) ?_
      have hbfk := (hps kv (List.mem_cons_self kv rest)).1
      have hne : x ≠ kv.1 := fun h => (hps kv (List.mem_cons_self kv rest)).2 h.symm
      exact replaceAll_infix_preserved x kv.1 hx hbfk hne kv.2 acc.length acc
        le_rfl hacc
  show placeholder x <:+:
    (pre ++ (k, v) :: post).foldl
      (fun acc kv => replaceAll acc (placeholder kv.1) kv.2)
      (replaceAll template (placeholder reservedVar) prompt)
  rw [List.foldl_append, List.foldl_cons]
  refine hpres post _ hpost ?_
  have hins : v <:+:
      replaceAll (injectVariables template pre prompt) (placeholder k) v :=
    replaceAll_infix_insert k v (injectVariables template pre prompt).length _
      le_rfl hk
  exact hv.trans hins

/-- C2 witness: with template `{a}`, the single mapping entry
`a ↦ "{b}"` and an empty agent prompt, the inserted `{b}` text survives. -/
theorem claim2_no_secondary_expansion_witness :
    placeholder "b".toList <:+:
      injectVariables "{a}".toList [("a".toList, "{b}".toList)] [] :=
  claim2_no_secondary_expansion "{a}".toList [] "{b}".toList "b".toList
    "a".toList [] [] (by decide)
    (fun kv h => absurd h (List.not_mem_nil kv)) (by decide) (by decide)

/-- C2 counterexample: the claim as stated is false — with the mapping
`a ↦ "{b}", b ↦ "X"` on template `{a}`, the inserted literal `{b}` text is
expanded by the later substitution, so the output is `X` and contains no
`{b}`. -/
theorem claim2_counterexample :
    injectVariables "{a}".toList
        [("a".toList, "{b}".toList), ("b".toList, "X".toList)] [] = "X".toList
      ∧ ¬ ("{b}".toList <:+:
        injectVariables "{a}".toList
          [("a".toList, "{b}".toList), ("b".toList, "X".toList)] []) := by
  constructor
  · rfl
  · decide

/-- C3 (corrected): two runs of `detect` on identical input differ only in
the wall-clock extraction timestamp stored in `raw_data`; erasing that
timestamp makes detection deterministic, and `detect_variables` returns a
list of distinct identifiers. -/
theorem claim3_determinism_up_to_timestamp :
    (∀ t₁ t₂ content,
      eraseStamp (detectAt t₁ content) = eraseStamp (detectAt t₂ content))
    ∧ (∀ template, (detectVariables template).Nodup) := by
  constructor
  · intro t₁ t₂ content
    unfold detectAt
    by_cases hc : content = []
    · rw [if_pos hc, if_pos hc]
    · rw [if_neg hc, if_neg hc]
      rw [detectBodyAt_stamp t₁ content, detectBodyAt_stamp t₂ content]
      cases detectBodyAt [] content with
      | error e => rfl
      | ok i =>
        show eraseStamp (if hasDetectedInfo _ then _ else _)
          = eraseStamp (if hasDetectedInfo _ then _ else _)
        by_cases hd : hasDetectedInfo
            { i with raw_data := { i.raw_data with extracted_at := t₁ } } = true
        · have hd₂ : hasDetectedInfo
              { i with raw_data := { i.raw_data with extracted_at := t₂ } } = true := hd
          rw [if_pos hd, if_pos hd₂]
          rfl
        · have hd₂ : ¬ hasDetectedInfo
              { i with raw_data := { i.raw_data with extracted_at := t₂ } } = true := hd
          rw [if_neg hd, if_neg hd₂]
  · intro template
    exact nodup_detectVariables template

/-- C3 counterexample: the claim as stated is false — two runs of `detect`
at different wall-clock times on the same input return unequal records
(their `raw_data` timestamps differ). -/
theorem claim3_counterexample :
    detectAt "2025-07-10T12:42:42".toList "cash".toList
      ≠ detectAt "2025-08-15T09:30:15".toList "cash".toList := by
  decide

/-- C5 (amended): the round-trip guarantee holds for templates that are
alternations of brace-free segments and simple `{identifier}` placeholders
(no stray or nested braces): supplying brace-free values for exactly the
variables returned by `detect_variables` and a brace-free agent prompt
leaves zero unresolved `{…}` placeholders in the injected output. -/
theorem claim5_roundtrip (template prompt : List Char)
    (vals : List (List Char × List Char))
    (hT : simpleOK template = true)
    (hvals : ∀ kv ∈ vals, BraceFree kv.2)
    (hprompt : BraceFree prompt)
    (hcover : ∀ id ∈ detectVariables template, id ∈ vals.map Prod.fst)
    (hexact : ∀ k ∈ vals.map Prod.fst, k ∈ detectVariables template) :
    findVars (injectVariables template vals prompt) = [] := by
  have hshape0 := simpleOK_shape template.length template le_rfl hT
  have hids := shape_findVars_ids hshape0
  have hres : BraceFree reservedVar := by decide
  have hstep0 := (hshape0.strengthen).replace reservedVar prompt hres hprompt
  have hstep0' : AltShape (fun id => id ∈ vals.map Prod.fst)
      (replaceAll template (placeholder reservedVar) prompt) := by
    refine hstep0.mono ?_
    intro id hid
    obtain ⟨⟨hmem, hbf, hne⟩, hnres⟩ := hid
    exact hcover id ((mem_detectVariables template id).mpr ⟨hmem, hnres⟩)
  have hkeysbf : ∀ kv ∈ vals, BraceFree kv.1 ∧ BraceFree kv.2 := by
    intro kv hkv
    refine ⟨?_, hvals kv hkv⟩
    have hmemk : kv.1 ∈ vals.map Prod.fst := List.mem_map.mpr ⟨kv, hkv, rfl⟩
    have hfv := ((mem_detectVariables template kv.1).mp (hexact kv.1 hmemk)).1
    exact (hids kv.1 hfv).1
  have hfinal := foldl_replace_braceFree vals _ hstep0' hkeysbf
  exact findVars_no_open _ hfinal.1

/-- C5 witness: a simple two-variable template with its exact variable set
supplied injects to a placeholder-free prompt. -/
theorem claim5_roundtrip_witness :
    findVars (injectVariables
      "Hello {name}, call {phone}. {active_agent_prompt}".toList
      [("name".toList, "Bob".toList), ("phone".toList, "555".toList)]
      "Agent ready".toList) = [] :=
  claim5_roundtrip _ _ _ (by decide) (by decide) (by decide) (by decide)
    (by decide)

/-- C5 counterexample: the claim as stated is false — on the template
`{b}{a{b}}`, whose detected variables are `b` and `a{b}`, supplying empty
(brace-free) values for exactly those variables and an empty agent prompt
leaves the unresolved placeholder `{a}` in the output. -/
theorem claim5_counterexample :
    detectVariables "\x7bb\x7d\x7ba\x7bb\x7d\x7d".toList
        = ["b".toList, "a\x7bb".toList]
      ∧ injectVariables "\x7bb\x7d\x7ba\x7bb\x7d\x7d".toList
          [("b".toList, []), ("a\x7bb".toList, [])] [] = "{a}".toList
      ∧ findVars (injectVariables "\x7bb\x7d\x7ba\x7bb\x7d\x7d".toList
          [("b".toList, []), ("a\x7bb".toList, [])] []) ≠ [] := by
  refine ⟨rfl, rfl, ?_⟩
  decide

/-- C1 (corrected): for non-empty input, `detect` returns a populated record
iff the body succeeds and one of the eight designated fields checked by
`_has_detected_info` — company name, dispatch fees, operating days,
membership program name, company experience, payment methods, service
categories, scheduling rules — is non-empty; other populated fields (such as
customer reviews) do not count. -/
theorem claim1_result_presence (now content : List Char) (h : content ≠ []) :
    (detectAt now content).isSome = true
      ↔ ∃ i, detectBodyAt now content = .ok i
          ∧ (i.company_info.company_name ≠ [] ∨ i.dispatch_fees ≠ []
            ∨ i.scheduling.operating_days ≠ [] ∨ i.membership.program_name ≠ []
            ∨ i.metrics.company_experience ≠ [] ∨ i.payment.accepted_methods ≠ []
            ∨ i.service_categories ≠ [] ∨ i.scheduling_rules ≠ []) := by
  unfold detectAt
  rw [if_neg h]
  cases hb : detectBodyAt now content with
  | error e => simp
  | ok i =>
    dsimp only
    by_cases hd : hasDetectedInfo i = true
    · rw [if_pos hd]
      simp only [Option.isSome_some, true_iff]
      exact ⟨i, rfl, (hasDetectedInfo_iff i).mp hd⟩
    · rw [if_neg hd]
      simp only [Option.isSome_none, Bool.false_eq_true, false_iff]
      rintro ⟨i', hi', hdisj⟩
      have : i' = i := by
        rw [Except.ok.injEq] at hi'
        exact hi'.symm
      subst this
      exact hd ((hasDetectedInfo_iff i').mpr hdisj)

/-- C1 witness: the presence rule instantiated on the input
`"500 reviews"`. -/
theorem claim1_result_presence_witness :
    (detectAt "2025-07-10T12:42:42".toList "500 reviews".toList).isSome = true
      ↔ ∃ i, detectBodyAt "2025-07-10T12:42:42".toList "500 reviews".toList
            = .ok i
          ∧ (i.company_info.company_name ≠ [] ∨ i.dispatch_fees ≠ []
            ∨ i.scheduling.operating_days ≠ [] ∨ i.membership.program_name ≠ []
            ∨ i.metrics.company_experience ≠ [] ∨ i.payment.accepted_methods ≠ []
            ∨ i.service_categories ≠ [] ∨ i.scheduling_rules ≠ []) :=
  claim1_result_presence _ _ (by decide)

/-- C1 counterexample: the claim as stated is false — on the input
`"500 reviews"` the detection pass populates the aggregate's
`customer_reviews` field, yet `detect` returns the no-result sentinel,
because `_has_detected_info` does not inspect that field. -/
theorem claim1_counterexample :
    detectAt "2025-07-10T12:42:42".toList "500 reviews".toList = none
      ∧ (match detectBodyAt "2025-07-10T12:42:42".toList "500 reviews".toList with
        | .ok i => i.metrics.customer_reviews
        | .error _ => []) = "500+ reviews".toList := by
  constructor
  · rfl
  · rfl

/-- C4 (confirmed): `detect` never raises — empty input yields the no-result
sentinel rather than an error, any exception in the detection body (embedded
as `Except.error`) is caught and converted to the no-result sentinel, and a
returned record is never partial or garbled: it is exactly the successful
body's record and passes the presence check. -/
theorem claim4_never_raises :
    (∀ now, detectAt now [] = none)
    ∧ (∀ now content e, detectBodyAt now content = .error e →
        detectAt now content = none)
    ∧ (∀ now content i, detectAt now content = some i →
        detectBodyAt now content = .ok i ∧ hasDetectedInfo i = true) := by
  refine ⟨fun now => rfl, ?_, ?_⟩
  · intro now content e he
    unfold detectAt
    by_cases hc : content = []
    · rw [if_pos hc]
    · rw [if_neg hc, he]
  · intro now content i hi
    unfold detectAt at hi
    by_cases hc : content = []
    · rw [if_pos hc] at hi
      exact absurd hi (by simp)
    · rw [if_neg hc] at hi
      cases hb : detectBodyAt now content with
      | error e => rw [hb] at hi; exact absurd hi (by simp)
      | ok i' =>
        rw [hb] at hi
        dsimp only at hi
        by_cases hd : hasDetectedInfo i' = true
        · rw [if_pos hd] at hi
          have : i' = i := by simpa using hi
          subst this
          exact ⟨rfl, hd⟩
        · rw [if_neg hd] at hi
          exact absurd hi (by simp)

/-- C4 witness: on an input whose resolution-rate branch accesses the
out-of-range capture group 2 (Python `IndexError`), the body errors and
`detect` returns the sentinel; on an input accepted as detected, the
returned record is the body's record and passes the presence check. -/
theorem claim4_never_raises_witness :
    detectAt "T".toList "we fix it same-day 9 out of schedule".toList = none
      ∧ hasDetectedInfo
          { payment := { accepted_methods := ["Check".toList] },
            raw_data := { content_length := 12, extraction_complete := true,
                          extracted_at := "T".toList } } = true :=
  ⟨claim4_never_raises.2.1 "T".toList _ "no such group".toList (by rfl),
   (claim4_never_raises.2.2 "T".toList "check please".toList
      { payment := { accepted_methods := ["Check".toList] },
        raw_data := { content_length := 12, extraction_complete := true,
                      extracted_at := "T".toList } } (by rfl)).2⟩

/-- C8 (amended): the operating-days branch keys on the matched text, not on
which pattern matched: when the first day-pattern match's text, lowercased,
contains `"7 days"`, the operating days are all seven weekday names in
Monday-first order; any other match — including a match of the
`7\s*days\s*a\s*week` pattern whose text lacks the space, and matches of the
weekday/business-day patterns — yields Monday through Friday. -/
theorem claim8_operating_days (content : List Char) (ng : Nat) (m : MRes)
    (h : firstSearch content dayPats = some (ng, m)) :
    (containsSub (lowStr (group0 content m)) "7 days".toList = true →
        (detectScheduling content).operating_days = allWeek)
    ∧ (containsSub (lowStr (group0 content m)) "7 days".toList = false →
        (detectScheduling content).operating_days = monFri) := by
  unfold detectScheduling
  rw [h]
  dsimp only
  constructor
  · intro h7
    rw [if_pos h7]
    cases firstSearch content hourPats with
    | none => rfl
    | some p =>
      dsimp only
      split
      · rfl
      · rfl
  · intro h7
    have h7' : containsSub (lowStr (group0 content m))
        ['7', ' ', 'd', 'a', 'y', 's'] = false := h7
    rw [if_neg (by simp [h7'])]
    by_cases hw : (containsSub (lowStr (group0 content m)) "weekday".toList
        || containsSub (lowStr (group0 content m)) "business day".toList) = true
    · rw [if_pos hw]
      cases firstSearch content hourPats with
      | none => rfl
      | some p =>
        dsimp only
        split
        · rfl
        · rfl
    · rw [if_neg hw]
      cases firstSearch content hourPats with
      | none => rfl
      | some p =>
        dsimp only
        split
        · rfl
        · rfl

/-- C8 witness: on `"open 7 days a week"` the first matching day pattern is
the `7 days a week` one and its text contains `"7 days"`, so all seven days
are reported. -/
theorem claim8_operating_days_witness :
    (detectScheduling "open 7 days a week".toList).operating_days = allWeek :=
  (claim8_operating_days "open 7 days a week".toList 0 ⟨5, 18, []⟩ (by rfl)).1
    (by decide)

/-- C8 counterexample: the claim as stated is false — on `"open 7days a
week"` the first matching day pattern is the `7\s*days\s*a\s*week` pattern
(index 3 of the cascade), yet the matched text `"7days a week"` does not
contain `"7 days"`, so the code reports Monday through Friday instead of all
seven weekday names. -/
theorem claim8_counterexample :
    (firstSearchIdx "open 7days a week".toList dayPats).map (fun z => z.1)
        = some 3
      ∧ (detectScheduling "open 7days a week".toList).operating_days = monFri
      ∧ monFri ≠ allWeek := by
  refine ⟨rfl, rfl, by decide⟩

/-- C9 (corrected): `_parse_hour` performs the spec's 12-to-24-hour
normalization (leading one-to-two-digit hour, `+12` on a PM marker unless
the hour is 12, `0` on an AM marker when the hour is 12), and the parsed
hours are used only to gate the morning/afternoon sub-slots — `total_hours`
is always the two raw captured groups joined by `" - "`.  But on
`'Monday through Friday, 8 AM to 5 PM'` the matching pattern captures the
bare digits, so `total_hours` is `"8 - 5"` (not `"8 AM - 5 PM"`) and
`afternoon_slots` is empty because the parsed end hour is 5, not greater
than 12. -/
theorem claim9_hour_parsing :
    (∀ t, parseHour t = parseHourSpec t)
    ∧ (∀ content ng m, firstSearch content hourPats = some (ng, m) →
        (detectScheduling content).total_hours
          = (groupTxt content m 1).getD [] ++ " - ".toList
            ++ (groupTxt content m 2).getD []
        ∧ ((truthyNat (parseHour ((groupTxt content m 1).getD []))
              && truthyNat (parseHour ((groupTxt content m 2).getD []))) = false →
            (detectScheduling content).morning_slots = []
            ∧ (detectScheduling content).afternoon_slots = []))
    ∧ (detectScheduling "Monday through Friday, 8 AM to 5 PM".toList).total_hours
        = "8 - 5".toList
    ∧ (detectScheduling
        "Monday through Friday, 8 AM to 5 PM".toList).afternoon_slots = [] := by
  refine ⟨parseHour_eq_spec, ?_, by rfl, by rfl⟩
  intro content ng m h
  unfold detectScheduling
  rw [h]
  dsimp only
  constructor
  · split
    · rfl
    · rfl
  · intro hgate
    rw [if_neg (by simp [hgate])]
    exact ⟨rfl, rfl⟩

/-- C9 witness: the hour-range branch instantiated on
`"12:00 AM to 5:00 PM"`, whose first hour pattern matches with captures
`12:00 AM` and `5:00 PM`. -/
theorem claim9_hour_parsing_witness :
    (detectScheduling "12:00 AM to 5:00 PM".toList).total_hours
        = "12:00 AM - 5:00 PM".toList
      ∧ parseHour "8".toList = parseHourSpec "8".toList :=
  ⟨((claim9_hour_parsing.2.1 "12:00 AM to 5:00 PM".toList 2
      ⟨0, 19, [(2, 12, 19), (1, 0, 8)]⟩ (by rfl)).1.trans (by decide)),
   claim9_hour_parsing.1 "8".toList⟩

/-- C9 counterexample: the claim as stated is false — on
`'Monday through Friday, 8 AM to 5 PM'`, `detect`'s scheduling component has
`total_hours = "8 - 5"` (the captures are the bare hour digits, not
`"8 AM - 5 PM"`) and an empty `afternoon_slots` (the parsed end hour 5 is
not greater than 12). -/
theorem claim9_counterexample :
    (match detectBodyAt "T".toList
        "Monday through Friday, 8 AM to 5 PM".toList with
      | .ok i => i.scheduling.total_hours
      | .error _ => []) = "8 - 5".toList
      ∧ "8 - 5".toList ≠ "8 AM - 5 PM".toList
      ∧ (match detectBodyAt "T".toList
          "Monday through Friday, 8 AM to 5 PM".toList with
        | .ok i => i.scheduling.afternoon_slots
        | .error _ => ['x']) = [] := by
  refine ⟨by rfl, by decide, by rfl⟩

/-- C10 (confirmed): `_parse_hour` maps `"12 AM"` (and `"12:00 AM"`) to hour
0, and because the sub-slot computation is gated on the Python truthiness of
both parsed hours, any detected hours range whose first capture parses to 0
reports `total_hours` (the joined raw captures) but empty morning and
afternoon slots — even when the range crosses noon. -/
theorem claim10_midnight_start :
    parseHour "12 AM".toList = some 0
    ∧ parseHour "12:00 AM".toList = some 0
    ∧ (∀ content ng m, firstSearch content hourPats = some (ng, m) →
        parseHour ((groupTxt content m 1).getD []) = some 0 →
        (detectScheduling content).total_hours
          = (groupTxt content m 1).getD [] ++ " - ".toList
            ++ (groupTxt content m 2).getD []
        ∧ (detectScheduling content).morning_slots = []
        ∧ (detectScheduling content).afternoon_slots = []) := by
  refine ⟨by decide, by decide, ?_⟩
  intro content ng m h h0
  unfold detectScheduling
  rw [h]
  dsimp only
  have hgate : (truthyNat (parseHour ((groupTxt content m 1).getD []))
      && truthyNat (parseHour ((groupTxt content m 2).getD []))) = false := by
    rw [h0]
    simp [truthyNat]
  rw [if_neg (by simp [hgate])]
  exact ⟨rfl, rfl, rfl⟩

/-- C10 witness: on `"12:00 AM to 5:00 PM"` the detected range starts at
12:00 AM (parsed hour 0) and ends at 5:00 PM (parsed hour 17, past noon),
and the sub-slots are empty while `total_hours` is populated. -/
theorem claim10_midnight_start_witness :
    ((detectScheduling "12:00 AM to 5:00 PM".toList).total_hours
        = "12:00 AM".toList ++ " - ".toList ++ "5:00 PM".toList
      ∧ (detectScheduling "12:00 AM to 5:00 PM".toList).morning_slots = []
      ∧ (detectScheduling "12:00 AM to 5:00 PM".toList).afternoon_slots = [])
      ∧ parseHour "5:00 PM".toList = some 17 :=
  ⟨claim10_midnight_start.2.2 "12:00 AM to 5:00 PM".toList 2
      ⟨0, 19, [(2, 12, 19), (1, 0, 8)]⟩ (by rfl) (by rfl),
   by decide⟩

/-- C6 (amended): every stored rule's priority is `critical` iff its
description, upper-cased, contains one of CRITICAL, NEVER, ALWAYS, MUST —
and descriptions are pairwise distinct — provided every matched rule text is
at most 200 characters, so that the stored description (the text truncated
to 200 characters) equals the full text against which the duplicate check
compares.  Matched texts longer than 200 characters defeat the duplicate
check (see the counterexample). -/
theorem claim6_rule_classification (content : List Char)
    (h : ∀ p ∈ ruleMatchTexts content, p.2.length ≤ 200) :
    ((detectSchedulingRules content).map (fun r => r.description)).Nodup
      ∧ ∀ r ∈ detectSchedulingRules content,
        (r.priority = "critical".toList
          ↔ priorityWords.any (fun w => containsSub (uppStr r.description) w)
            = true) := by
  unfold detectSchedulingRules
  exact foldl_addRule_inv (ruleMatchTexts content) [] h List.nodup_nil
    (fun r hr => absurd hr (List.not_mem_nil r))

/-- C6 witness: on `"NEVER end a call without booking"` (two distinct rule
matches, both under 200 characters) the descriptions are distinct and both
rules classify as critical. -/
theorem claim6_rule_classification_witness :
    ((detectSchedulingRules "NEVER end a call without booking".toList).map
        (fun r => r.description)).Nodup
      ∧ ∀ r ∈ detectSchedulingRules "NEVER end a call without booking".toList,
        (r.priority = "critical".toList
          ↔ priorityWords.any (fun w => containsSub (uppStr r.description) w)
            = true) :=
  claim6_rule_classification "NEVER end a call without booking".toList
    (by decide)

set_option maxRecDepth 1000000 in
/-- C6 counterexample: the claim as stated is false — `ruleCtr` contains the
same 201-character rule sentence twice, each matched separately; the
duplicate check compares the first rule's truncated description against the
second full matched text, fails to match, and stores two rules with
identical descriptions. -/
theorem claim6_counterexample :
    (∃ p ∈ ruleMatchTexts ruleCtr, 200 < p.2.length)
      ∧ ¬ ((detectSchedulingRules ruleCtr).map (fun r => r.description)).Nodup := by
  constructor
  · decide
  · decide

/-- C7 (confirmed): the dispatch-fee list is insertion-ordered and
duplicate-suppressed keyed by (pattern category, amount): no two stored fees
share both the category their `service_type` label encodes and their amount
— the standard loop's `standard_$amount` key suppresses re-detections of the
same fee under different standard patterns, and each other category
contributes at most one fee.  In particular the `$150` fee phrase matched by
two different standard patterns yields exactly one `DispatchFee`. -/
theorem claim7_fee_dedup :
    (∀ content, (detectDispatchFees content).Pairwise
        (fun a b => feeCat a ≠ feeCat b ∨ a.amount ≠ b.amount))
      ∧ (detectDispatchFees
          "We charge a $150 dispatch fee. Dispatch fee of $150 for all visits.".toList).map
            (fun f => f.amount) = ["$150".toList] := by
  constructor
  · intro content
    have hstd := foldl_patterns_inv content feeStandardPats ([], [])
      (fun f hf => absurd hf (List.not_mem_nil f)) List.Pairwise.nil
    have hcatstd : ∀ f ∈ (stdFees content).1, feeCat f = "standard".toList := by
      intro f hf
      rcases (hstd.1 f hf).1 with h | h | h <;> simp [feeCat, h]
    have hpwstd : (stdFees content).1.Pairwise
        (fun a b => feeCat a ≠ feeCat b ∨ a.amount ≠ b.amount) :=
      hstd.2.imp (fun hab => Or.inr hab)
    have hemer : ∀ f ∈ emerFee content, feeCat f = "Emergency Call".toList := by
      intro f hf
      unfold emerFee at hf
      cases hm : firstSearch content feeEmergencyPats with
      | none => rw [hm] at hf; exact absurd hf (List.not_mem_nil f)
      | some p =>
        rw [hm] at hf
        obtain ⟨ng, m⟩ := p
        have := List.mem_singleton.mp hf
        subst this
        simp only [feeCat]
        rw [if_neg (by decide)]
    have hest : ∀ f ∈ estFee content, feeCat f = "Estimate Visit".toList := by
      intro f hf
      unfold estFee at hf
      cases hm : firstSearch content feeEstimatePats with
      | none => rw [hm] at hf; exact absurd hf (List.not_mem_nil f)
      | some p =>
        rw [hm] at hf
        obtain ⟨ng, m⟩ := p
        have := List.mem_singleton.mp hf
        subst this
        simp only [feeCat]
        rw [if_neg (by decide)]
    have hmemb : ∀ f ∈ membFee content, feeCat f = "Members".toList := by
      intro f hf
      unfold membFee at hf
      cases hm : firstSearch content feeMemberPats with
      | none => rw [hm] at hf; exact absurd hf (List.not_mem_nil f)
      | some p =>
        rw [hm] at hf
        have := List.mem_singleton.mp hf
        subst this
        simp only [feeCat]
        rw [if_neg (by decide)]
    have hmult : ∀ f ∈ multFee content, feeCat f = "Multiple Issues".toList := by
      intro f hf
      unfold multFee at hf
      cases hm : firstSearch content feeMultiplePats with
      | none => rw [hm] at hf; exact absurd hf (List.not_mem_nil f)
      | some p =>
        rw [hm] at hf
        obtain ⟨ng, m⟩ := p
        have := List.mem_singleton.mp hf
        subst this
        simp only [feeCat]
        rw [if_neg (by decide)]
    have hpwE : (emerFee content).Pairwise
        (fun a b => feeCat a ≠ feeCat b ∨ a.amount ≠ b.amount) := by
      unfold emerFee
      cases firstSearch content feeEmergencyPats with
      | none => exact .nil
      | some p => exact List.pairwise_singleton _ _
    have hpwEst : (estFee content).Pairwise
        (fun a b => feeCat a ≠ feeCat b ∨ a.amount ≠ b.amount) := by
      unfold estFee
      cases firstSearch content feeEstimatePats with
      | none => exact .nil
      | some p => exact List.pairwise_singleton _ _
    have hpwM : (membFee content).Pairwise
        (fun a b => feeCat a ≠ feeCat b ∨ a.amount ≠ b.amount) := by
      unfold membFee
      cases firstSearch content feeMemberPats with
      | none => exact .nil
      | some p => exact List.pairwise_singleton _ _
    have hpwMu : (multFee content).Pairwise
        (fun a b => feeCat a ≠ feeCat b ∨ a.amount ≠ b.amount) := by
      unfold multFee
      cases firstSearch content feeMultiplePats with
      | none => exact .nil
      | some p => exact List.pairwise_singleton _ _
    have g1 : ((stdFees content).1 ++ emerFee content).Pairwise
        (fun a b => feeCat a ≠ feeCat b ∨ a.amount ≠ b.amount) := by
      rw [List.pairwise_append]
      refine ⟨hpwstd, hpwE, fun a ha b hb => Or.inl ?_⟩
      rw [hcatstd a ha, hemer b hb]
      decide
    have hcat1 : ∀ f ∈ (stdFees content).1 ++ emerFee content,
        feeCat f = "standard".toList ∨ feeCat f = "Emergency Call".toList := by
      intro f hf
      rcases List.mem_append.mp hf with h | h
      · exact Or.inl (hcatstd f h)
      · exact Or.inr (hemer f h)
    have g2 : ((stdFees content).1 ++ emerFee content ++ estFee content).Pairwise
        (fun a b => feeCat a ≠ feeCat b ∨ a.amount ≠ b.amount) := by
      rw [List.pairwise_append]
      refine ⟨g1, hpwEst, fun a ha b hb => Or.inl ?_⟩
      rw [hest b hb]
      rcases hcat1 a ha with h | h <;> rw [h] <;> decide
    have hcat2 : ∀ f ∈ (stdFees content).1 ++ emerFee content ++ estFee content,
        feeCat f = "standard".toList ∨ feeCat f = "Emergency Call".toList
          ∨ feeCat f = "Estimate Visit".toList := by
      intro f hf
      rcases List.mem_append.mp hf with h | h
      · rcases hcat1 f h with h | h
        · exact Or.inl h
        · exact Or.inr (Or.inl h)
      · exact Or.inr (Or.inr (hest f h))
    have g3 : ((stdFees content).1 ++ emerFee content ++ estFee content
        ++ membFee content).Pairwise
        (fun a b => feeCat a ≠ feeCat b ∨ a.amount ≠ b.amount) := by
      rw [List.pairwise_append]
      refine ⟨g2, hpwM, fun a ha b hb => Or.inl ?_⟩
      rw [hmemb b hb]
      rcases hcat2 a ha with h | h | h <;> rw [h] <;> decide
    have hcat3 : ∀ f ∈ (stdFees content).1 ++ emerFee content ++ estFee content
        ++ membFee content,
        feeCat f = "standard".toList ∨ feeCat f = "Emergency Call".toList
          ∨ feeCat f = "Estimate Visit".toList
          ∨ feeCat f = "Members".toList := by
      intro f hf
      rcases List.mem_append.mp hf with h | h
      · rcases hcat2 f h with h | h | h
        · exact Or.inl h
        · exact Or.inr (Or.inl h)
        · exact Or.inr (Or.inr (Or.inl h))
      · exact Or.inr (Or.inr (Or.inr (hmemb f h)))
    unfold detectDispatchFees
    rw [List.pairwise_append]
    refine ⟨g3, hpwMu, fun a ha b hb => Or.inl ?_⟩
    rw [hmult b hb]
    rcases hcat3 a ha with h | h | h | h <;> rw [h] <;> decide
  · rfl

end App
